import Mathlib

/-!
Verification of the twin-mind entity-graph engine
(`scripts/twin_mind/entity_graph.py`, `scripts/twin_mind/entity_extractors.py`).

The Python code is shallowly embedded: every definition below is a direct
translation of the corresponding Python function (names are kept, with
underscores dropped and camelCase applied where Lean requires it).  Python
strings are Lean `String`s manipulated through their character lists,
Python floats carrying confidence scores are modelled as rationals (all the
scores the code manipulates are exact decimals), SQLite tables are lists of
row structures, and Python dicts are association lists with
last-write-wins update semantics.
-/

namespace TwinMind

/- Batteries seals rational arithmetic behind `irreducible`; the concrete
confidence computations in witnesses are evaluated by `decide`, which
needs these definitions transparent again. -/
attribute [local semireducible] Rat.add Rat.sub Rat.mul Rat.inv Rat.ofScientific

/-! ### Python string primitives

`pyWs` is the ASCII whitespace set recognised by `str.strip()`;
`pyLower`/`pyStrip` model `str.lower()`/`str.strip()` on the character
data of a string (ASCII case folding, which is all the code relies on).
-/

def pyWs (c : Char) : Bool :=
  c = ' ' || c = '\t' || c = '\n' || c = '\r' || c = '\x0b' || c = '\x0c'

def pyLower (s : String) : String :=
  String.mk (s.data.map Char.toLower)

def pyStripList (l : List Char) : List Char :=
  ((l.dropWhile pyWs).reverse.dropWhile pyWs).reverse

def pyStrip (s : String) : String :=
  String.mk (pyStripList s.data)

/-- `s.strip(c)` for a single character `c` (used by `.strip("/")`). -/
def pyStripChar (c : Char) (s : String) : String :=
  String.mk (((s.data.dropWhile (· = c)).reverse.dropWhile (· = c)).reverse)

/-- Character-level splitter: `s.split(sep)` for a one-character separator.
Produces `n + 1` parts for `n` separators, like Python `str.split(sep)`. -/
def splitOnChar (sep : Char) : List Char → List (List Char)
  | [] => [[]]
  | c :: rest =>
    match splitOnChar sep rest with
    | [] => [[]]
    | part :: parts => if c = sep then [] :: part :: parts else (c :: part) :: parts

/-- `sep.join(parts)` at the character level. -/
def joinChar (sep : Char) : List (List Char) → List Char
  | [] => []
  | [p] => p
  | p :: rest => p ++ sep :: joinChar sep rest

/-- `s.split(".")` returning strings. -/
def pySplitDot (s : String) : List String :=
  (splitOnChar '.' s.data).map String.mk

/-- `".".join(parts)`. -/
def joinDot (parts : List String) : String :=
  String.mk (joinChar '.' (parts.map String.data))

/-- `s.rsplit(sep, 1)[0]`: everything before the last occurrence of `sep`
(the string itself when `sep` does not occur). -/
def rsplitHead (sep : Char) (s : String) : String :=
  match (splitOnChar sep s.data).reverse with
  | [] => s
  | [_] => s
  | _ :: front => String.mk (joinChar sep front.reverse)

/-- `sep in s` for a one-character `sep`. -/
def containsChar (sep : Char) (s : String) : Bool :=
  s.data.contains sep

/-! ### `_module_name_from_path`

`Path(...).parts` for the already-normalized relative POSIX path drops
empty and single-dot components; `with_suffix("")` removes the last
component's suffix, where (as in `pathlib`) a name has a suffix only when
its last dot sits strictly inside the name.  Python raises on the
degenerate all-separator input where `Path('.')` has no name; the
embedding returns the same `"module"` sentinel the empty-parts branch
produces, a case no claim touches. -/

def replaceBackslashes (s : String) : String :=
  String.mk (s.data.map (fun c => if c = '\\' then '/' else c))

/-- Index of the last occurrence of `c` in `l` (Python `str.rfind`). -/
def lastIdxOf (c : Char) : List Char → Option Nat
  | [] => none
  | x :: rest =>
    match lastIdxOf c rest with
    | some i => some (i + 1)
    | none => if x = c then some 0 else none

/-- `Path(name).with_suffix("")` applied to one path component. -/
def dropPathSuffix (s : String) : String :=
  match lastIdxOf '.' s.data with
  | none => s
  | some i =>
    if 0 < i ∧ i + 1 < s.data.length then String.mk (s.data.take i) else s

/-- `Path(p).parts` for a relative POSIX path string. -/
def pathParts (s : String) : List String :=
  ((splitOnChar '/' s.data).map String.mk).filter (fun p => !(p = "" || p = "."))

def mapLast (f : String → String) : List String → List String
  | [] => []
  | [x] => [f x]
  | x :: rest => x :: mapLast f rest

def dropTrailingInit (parts : List String) : List String :=
  if parts.getLast? = some "__init__" then parts.dropLast else parts

/-- Translation of `_module_name_from_path`. -/
def moduleNameFromPath (filePath : String) : String :=
  let normalized := pyStripChar '/' (replaceBackslashes filePath)
  let parts := dropTrailingInit (mapLast dropPathSuffix (pathParts normalized))
  if parts = [] then "module" else joinDot parts

/-- Spec-side helper: assemble a path from its slash-separated segments
(used to state properties of `moduleNameFromPath` over well-formed paths). -/
def joinSlash (parts : List String) : String :=
  String.mk (joinChar '/' (parts.map String.data))

/-! ### `_resolve_import_module` -/

def nonEmptyDotParts (s : String) : List String :=
  (pySplitDot s).filter (fun p => p ≠ "")

/-- `imported.split(".", 1)[0]`. -/
def headDotPart (s : String) : String :=
  match pySplitDot s with
  | [] => s
  | p :: _ => p

/-- Translation of `_resolve_import_module`. -/
def resolveImportModule (moduleName module : String) (level : Nat)
    (isPackageInit : Bool) : String :=
  let module := pyStrip module
  if level = 0 then module
  else
    let basePackage :=
      if isPackageInit then moduleName
      else if containsChar '.' moduleName then rsplitHead '.' moduleName else ""
    let parts0 := nonEmptyDotParts basePackage
    let climb := level - 1
    let parts1 :=
      if parts0.length ≤ climb then []
      else if climb ≠ 0 then parts0.take (parts0.length - climb)
      else parts0
    let parts :=
      if module ≠ "" then parts1 ++ nonEmptyDotParts module else parts1
    joinDot parts

/-! ### The Python AST visitor (`_PythonEntityVisitor`)

The embedded AST keeps exactly the node shapes the visitor inspects
(`ClassDef`, `FunctionDef`, `AsyncFunctionDef`, `Call`, `Import`,
`ImportFrom`, and the `Name`/`Attribute`/`Subscript` expressions that
`_expr_to_name` flattens); every other node shape is `otherNode` over its
children, which is all `generic_visit` sees.  Import aliases are
`(name, asname?)` pairs. -/

mutual
inductive PyNode where
  | classDef (name : String) (bases : PyNodes) (body : PyNodes) (lineno : Nat)
  | functionDef (name : String) (body : PyNodes) (lineno : Nat)
  | asyncFunctionDef (name : String) (body : PyNodes) (lineno : Nat)
  | callExpr (func : PyNode) (args : PyNodes) (lineno : Nat)
  | importStmt (names : List (String × Option String)) (lineno : Nat)
  | importFrom (module : Option String) (level : Nat)
      (names : List (String × Option String)) (lineno : Nat)
  | nameExpr (id : String)
  | attributeExpr (value : PyNode) (attr : String)
  | subscriptExpr (value : PyNode) (rest : PyNodes)
  | otherNode (children : PyNodes)
inductive PyNodes where
  | nil
  | cons (hd : PyNode) (tl : PyNodes)
end

def PyNodes.toList : PyNodes → List PyNode
  | .nil => []
  | .cons h t => h :: PyNodes.toList t

def PyNodes.append : PyNodes → PyNodes → PyNodes
  | .nil, ys => ys
  | .cons h t, ys => .cons h (PyNodes.append t ys)

/-- Translation of `_expr_to_name`. -/
def exprToName : PyNode → String
  | .nameExpr id => id
  | .attributeExpr value attr =>
    let base := exprToName value
    if base ≠ "" then base ++ "." ++ attr else attr
  | .callExpr func _ _ => exprToName func
  | .subscriptExpr value _ => exprToName value
  | _ => ""

structure EntityData where
  filePath : String
  name : String
  qualname : String
  kind : String
  line : Nat
  deriving DecidableEq, Repr

structure RelationData where
  filePath : String
  srcQualname : String
  dstName : String
  relation : String
  line : Nat
  deriving DecidableEq, Repr

/-- `_add_relation`: dropped when either endpoint is empty. -/
def addRelationRows (fp src dst relation : String) (line : Nat) : List RelationData :=
  if src = "" || dst = "" then [] else [⟨fp, src, dst, relation, line⟩]

/-- Relations `visit_Import` emits for one alias. -/
def importAliasRelations (fp src : String) (line : Nat)
    (al : String × Option String) : List RelationData :=
  let imported := pyStrip al.1
  if imported = "" then []
  else
    let rels := addRelationRows fp src imported "imports" line
    let localName := match al.2 with
      | some asn => pyStrip asn
      | none => ""
    let (localName, target) :=
      if localName = "" ∧ containsChar '.' imported then
        (headDotPart imported, headDotPart imported)
      else (localName, imported)
    if localName ≠ "" then
      rels ++ addRelationRows fp src (localName ++ "=" ++ target) "imports_alias" line
    else rels

/-- Relations `visit_ImportFrom` emits for one alias, given the resolved module. -/
def importFromAliasRelations (fp src module : String) (line : Nat)
    (al : String × Option String) : List RelationData :=
  let leaf := pyStrip al.1
  if leaf = "" ∨ leaf = "*" then []
  else
    let imported := if module ≠ "" then module ++ "." ++ leaf else leaf
    let rels := addRelationRows fp src imported "imports" line
    match al.2 with
    | some asn => rels ++ addRelationRows fp src (pyStrip asn ++ "=" ++ imported) "imports_alias" line
    | none => rels

/-- All relations `visit_ImportFrom` emits for one statement. -/
def importFromRelations (fp src moduleName : String) (isInit : Bool)
    (module : Option String) (level : Nat)
    (names : List (String × Option String)) (line : Nat) : List RelationData :=
  let resolved := resolveImportModule moduleName (pyStrip (module.getD "")) level isInit
  (names.map (importFromAliasRelations fp src resolved line)).flatten

/-- `inherits` relations `visit_ClassDef` emits for the base-class list. -/
def inheritsRelations (fp qualname : String) (line : Nat)
    (bases : List PyNode) : List RelationData :=
  (bases.map (fun base =>
    let baseName := exprToName base
    if baseName ≠ "" then addRelationRows fp qualname baseName "inherits" line
    else [])).flatten

mutual
/-- The visitor walk for one node.  `cur` is the top of the scope stack
(`_current_scope`, `_current_scope_kind`); the returned lists are the
entity/relation rows appended while visiting this node, in append order. -/
def visitPyNode (fp moduleName : String) (isInit : Bool) (cur : String × String) :
    PyNode → List EntityData × List RelationData
  | .classDef name bases body line =>
    let qualname := cur.1 ++ "." ++ name
    let defines := addRelationRows fp cur.1 qualname "defines" line
    let inh := inheritsRelations fp qualname line bases.toList
    let rb := visitPyNodes fp moduleName isInit (qualname, "class") bases
    let rc := visitPyNodes fp moduleName isInit (qualname, "class") body
    (⟨fp, name, qualname, "class", line⟩ :: (rb.1 ++ rc.1), defines ++ inh ++ (rb.2 ++ rc.2))
  | .functionDef name body line =>
    let kind := if cur.2 = "class" then "method" else "function"
    let qualname := cur.1 ++ "." ++ name
    let defines := addRelationRows fp cur.1 qualname "defines" line
    let rc := visitPyNodes fp moduleName isInit (qualname, kind) body
    (⟨fp, name, qualname, kind, line⟩ :: rc.1, defines ++ rc.2)
  | .asyncFunctionDef name body line =>
    let kind := if cur.2 = "class" then "method" else "function"
    let qualname := cur.1 ++ "." ++ name
    let defines := addRelationRows fp cur.1 qualname "defines" line
    let rc := visitPyNodes fp moduleName isInit (qualname, kind) body
    (⟨fp, name, qualname, kind, line⟩ :: rc.1, defines ++ rc.2)
  | .callExpr func args line =>
    let callee := exprToName func
    let callRel := if callee ≠ "" then addRelationRows fp cur.1 callee "calls" line else []
    let rf := visitPyNode fp moduleName isInit cur func
    let ra := visitPyNodes fp moduleName isInit cur args
    (rf.1 ++ ra.1, callRel ++ (rf.2 ++ ra.2))
  | .importStmt names line =>
    ([], (names.map (importAliasRelations fp cur.1 line)).flatten)
  | .importFrom module level names line =>
    ([], importFromRelations fp cur.1 moduleName isInit module level names line)
  | .nameExpr _ => ([], [])
  | .attributeExpr value _ => visitPyNode fp moduleName isInit cur value
  | .subscriptExpr value rest =>
    let rv := visitPyNode fp moduleName isInit cur value
    let rr := visitPyNodes fp moduleName isInit cur rest
    (rv.1 ++ rr.1, rv.2 ++ rr.2)
  | .otherNode children => visitPyNodes fp moduleName isInit cur children

def visitPyNodes (fp moduleName : String) (isInit : Bool) (cur : String × String) :
    PyNodes → List EntityData × List RelationData
  | .nil => ([], [])
  | .cons n rest =>
    let rn := visitPyNode fp moduleName isInit cur n
    let rr := visitPyNodes fp moduleName isInit cur rest
    (rn.1 ++ rr.1, rn.2 ++ rr.2)
end

/-- `Path(s).stem`: the final path component with its suffix removed. -/
def pathStem (s : String) : String :=
  dropPathSuffix (((pathParts s).getLast?).getD "")

/-- Translation of `extract_python_entities` for an already-parsed module
body (`ast.parse` succeeded); the `_PythonEntityVisitor.__init__` module
entity comes first, then the walk.  `isInit` is `Path(file_path).stem ==
"__init__"`. -/
def extractPythonFromTree (fp : String) (body : PyNodes) :
    List EntityData × List RelationData :=
  let moduleName := moduleNameFromPath fp
  let isInit := pathStem fp = "__init__"
  let r := visitPyNodes fp moduleName isInit (moduleName, "module") body
  (⟨fp, moduleName, moduleName, "module", 1⟩ :: r.1, r.2)

/-- `extract_python_entities` itself: a parse failure (`SyntaxError`)
yields `([], [])`; the parser is external to this module, so it enters the
embedding as the optional parsed tree. -/
def extractPythonEntities (fp : String) (parsed : Option PyNodes) :
    List EntityData × List RelationData :=
  match parsed with
  | none => ([], [])
  | some body => extractPythonFromTree fp body

/-! ### `_pick_best_candidate`

The candidate map built per relation (Python `Dict[int, float]`) is an
association list of `(entity id, score)` pairs in insertion order; Python's
stable `sorted(..., key=lambda item: item[1], reverse=True)` is modelled by
Mathlib's stable insertion sort under the "score at least as large"
relation. -/

/-- Descending-by-score order used by `_pick_best_candidate`'s `sorted`. -/
def scoreGE (a b : Nat × ℚ) : Prop := b.2 ≤ a.2

instance : DecidableRel scoreGE := fun a b => inferInstanceAs (Decidable (b.2 ≤ a.2))

instance : IsTotal (Nat × ℚ) scoreGE := ⟨fun a b => le_total b.2 a.2⟩

instance : IsTrans (Nat × ℚ) scoreGE := ⟨fun _ _ _ h1 h2 => le_trans h2 h1⟩

/-- `ranked = sorted(candidates.items(), key=lambda item: item[1], reverse=True)`. -/
def rankCandidates (candidates : List (Nat × ℚ)) : List (Nat × ℚ) :=
  List.insertionSort scoreGE candidates

/-- Translation of `_pick_best_candidate`. -/
def pickBestCandidate (candidates : List (Nat × ℚ)) : Option Nat × ℚ :=
  match candidates with
  | [] => (none, 0)
  | [(entityId, confidence)] => (some entityId, confidence)
  | _ :: _ :: _ =>
    let ranked := rankCandidates candidates
    let top := ranked.getD 0 (0, 0)
    let second := ranked.getD 1 (0, 0)
    if (0.15 : ℚ) ≤ top.2 - second.2 then (some top.1, top.2) else (none, 0)

/-! ### `_neutralize_js_content`

The Python routine walks the character array with an explicit state
machine, overwriting positions with spaces; every step advances by one or
two characters and only writes at the positions it consumes, so it is a
left-to-right transducer.  `JsScanState` is the `state`/`quote` pair. -/

inductive JsScanState where
  | code
  | lineComment
  | blockComment
  | strLit (quote : Char)
  deriving DecidableEq, Repr

def neutralizeGo : JsScanState → List Char → List Char
  | .code, '/' :: '/' :: rest => ' ' :: ' ' :: neutralizeGo .lineComment rest
  | .code, '/' :: '*' :: rest => ' ' :: ' ' :: neutralizeGo .blockComment rest
  | .code, c :: rest =>
    if c = '\'' || c = '"' || c = '`' then ' ' :: neutralizeGo (.strLit c) rest
    else c :: neutralizeGo .code rest
  | .lineComment, c :: rest =>
    if c = '\n' then '\n' :: neutralizeGo .code rest
    else ' ' :: neutralizeGo .lineComment rest
  | .blockComment, '*' :: '/' :: rest => ' ' :: ' ' :: neutralizeGo .code rest
  | .blockComment, c :: rest =>
    (if c = '\n' then '\n' else ' ') :: neutralizeGo .blockComment rest
  | .strLit q, '\\' :: c2 :: rest =>
    ' ' :: (if c2 = '\n' then '\n' else ' ') :: neutralizeGo (.strLit q) rest
  | .strLit q, c :: rest =>
    if c = q then ' ' :: neutralizeGo .code rest
    else (if c = '\n' then '\n' else ' ') :: neutralizeGo (.strLit q) rest
  | _, [] => []

/-- Translation of `_neutralize_js_content`. -/
def neutralizeJsContent (content : String) : String :=
  String.mk (neutralizeGo .code content.data)

/-! ### The graph store

The two SQLite tables are lists of row structures with their Python/SQL
column names; `id` is the AUTOINCREMENT primary key, handed out from the
store's `next…Id` counters.  `INSERT OR IGNORE` against the two unique
indices (`entities(file_path, qualname, kind)` and
`relations(file_path, src_qualname, dst_name, relation, line)`) skips a
row whose key is already present.  Python dicts are association lists:
`dictGet` finds the entry, `dictSet` overwrites in place or appends. -/

structure EntityRow where
  id : Nat
  file_path : String
  name : String
  qualname : String
  kind : String
  line : Int
  deriving DecidableEq, Repr

structure RelationRow where
  id : Nat
  file_path : String
  src_qualname : String
  dst_name : String
  relation : String
  line : Int
  src_entity_id : Option Nat
  dst_entity_id : Option Nat
  resolved : Bool
  confidence : ℚ
  deriving DecidableEq, Repr

/-- A relation row without its AUTOINCREMENT id (the values an insert
supplies, and the content the derived-relation pass regenerates). -/
structure RelationRowData where
  file_path : String
  src_qualname : String
  dst_name : String
  relation : String
  line : Int
  src_entity_id : Option Nat
  dst_entity_id : Option Nat
  resolved : Bool
  confidence : ℚ
  deriving DecidableEq, Repr

structure EntityRowData where
  file_path : String
  name : String
  qualname : String
  kind : String
  line : Int
  deriving DecidableEq, Repr

structure Store where
  entities : List EntityRow
  relations : List RelationRow
  nextEntityId : Nat
  nextRelationId : Nat
  deriving DecidableEq, Repr

def RelationRowData.withId (d : RelationRowData) (id : Nat) : RelationRow :=
  ⟨id, d.file_path, d.src_qualname, d.dst_name, d.relation, d.line,
    d.src_entity_id, d.dst_entity_id, d.resolved, d.confidence⟩

def RelationRow.stripId (r : RelationRow) : RelationRowData :=
  ⟨r.file_path, r.src_qualname, r.dst_name, r.relation, r.line,
    r.src_entity_id, r.dst_entity_id, r.resolved, r.confidence⟩

def EntityRowData.withId (d : EntityRowData) (id : Nat) : EntityRow :=
  ⟨id, d.file_path, d.name, d.qualname, d.kind, d.line⟩

def relKey (r : RelationRow) : String × String × String × String × Int :=
  (r.file_path, r.src_qualname, r.dst_name, r.relation, r.line)

def relKeyData (d : RelationRowData) : String × String × String × String × Int :=
  (d.file_path, d.src_qualname, d.dst_name, d.relation, d.line)

def entKey (e : EntityRow) : String × String × String :=
  (e.file_path, e.qualname, e.kind)

def entKeyData (d : EntityRowData) : String × String × String :=
  (d.file_path, d.qualname, d.kind)

def insertRelOrIgnore (st : Store) (d : RelationRowData) : Store :=
  if st.relations.any (fun r => relKey r == relKeyData d) then st
  else { st with relations := st.relations ++ [d.withId st.nextRelationId],
                 nextRelationId := st.nextRelationId + 1 }

def insertRelsOrIgnore (st : Store) (ds : List RelationRowData) : Store :=
  ds.foldl insertRelOrIgnore st

def insertEntOrIgnore (st : Store) (d : EntityRowData) : Store :=
  if st.entities.any (fun e => entKey e == entKeyData d) then st
  else { st with entities := st.entities ++ [d.withId st.nextEntityId],
                 nextEntityId := st.nextEntityId + 1 }

def insertEntsOrIgnore (st : Store) (ds : List EntityRowData) : Store :=
  ds.foldl insertEntOrIgnore st

/-- `_clear_file_graph`. -/
def clearFileGraph (st : Store) (fp : String) : Store :=
  { st with relations := (st.relations.filter (fun r => !(r.file_path == fp))),
            entities := (st.entities.filter (fun e => !(e.file_path == fp))) }

/-- `_index_file_content` for an extraction result already in hand. -/
def indexFileContent (st : Store) (extraction : List EntityData × List RelationData) :
    Store :=
  if extraction.1 = [] ∧ extraction.2 = [] then st
  else
    let st1 := insertEntsOrIgnore st (extraction.1.map
      (fun e => ⟨e.filePath, e.name, e.qualname, e.kind, (e.line : Int)⟩))
    insertRelsOrIgnore st1 (extraction.2.map
      (fun r => ⟨r.filePath, r.srcQualname, r.dstName, r.relation, (r.line : Int),
        none, none, false, 0⟩))

/-! ### Python dict / set helpers -/

def dictGet {κ α : Type} [DecidableEq κ] : List (κ × α) → κ → Option α
  | [], _ => none
  | (k', v) :: rest, k => if k = k' then some v else dictGet rest k

def dictSet {κ α : Type} [DecidableEq κ] : List (κ × α) → κ → α → List (κ × α)
  | [], k, v => [(k, v)]
  | (k', v') :: rest, k, v =>
    if k = k' then (k, v) :: rest else (k', v') :: dictSet rest k v

/-- `defaultdict(list)`-style append. -/
def dictAppend {κ α : Type} [DecidableEq κ] (m : List (κ × List α)) (k : κ) (v : α) :
    List (κ × List α) :=
  dictSet m k ((dictGet m k).getD [] ++ [v])

/-- `set.add` on an insertion-ordered set. -/
def setAdd {α : Type} [DecidableEq α] (l : List α) (v : α) : List α :=
  if v ∈ l then l else l ++ [v]

/-- Order-preserving first-kept dedup (`list(dict.fromkeys(...))`,
translation of `_unique_ints`; also models Python's `seen`-set filters). -/
def dedupByKey {α κ : Type} [DecidableEq κ] (key : α → κ) : List α → List α
  | [] => []
  | x :: rest => x :: (dedupByKey key rest).filter (fun y => key y ≠ key x)

def uniqueInts (l : List Nat) : List Nat := dedupByKey (fun i => i) l

/-! ### The relation resolver (`_resolve_relations` and helpers) -/

/-- `dst.startswith(pre)`. -/
def strStarts (pre s : String) : Bool := pre.data.isPrefixOf s.data

/-- `s.partition(sep)[2]`: everything after the first occurrence of `sep`
(empty when `sep` does not occur). -/
def partitionAfter (sep : Char) (s : String) : String :=
  match splitOnChar sep s.data with
  | [] => ""
  | [_] => ""
  | _ :: rest => String.mk (joinChar sep rest)

/-- `s.partition(sep)[0]`: everything before the first occurrence of `sep`
(the whole string when `sep` does not occur). -/
def partitionBefore (sep : Char) (s : String) : String :=
  match splitOnChar sep s.data with
  | [] => s
  | p :: _ => String.mk p

/-- Translation of `_parse_import_alias`. -/
def parseImportAlias (raw : String) : String × String :=
  let value := pyStrip raw
  if ¬containsChar '=' value then ("", "")
  else
    let al := pyLower (pyStrip (partitionBefore '=' value))
    let target := pyLower (pyStrip (partitionAfter '=' value))
    if al = "" ∨ target = "" then ("", "") else (al, target)

/-- Translation of `_scope_chain`. -/
def scopeChain (srcQualname moduleName : String) : List String :=
  let raw := pyStrip srcQualname
  let scopes :=
    if raw = "" then []
    else
      let parts := pySplitDot raw
      (List.range parts.length).reverse.map
        (fun i => pyLower (joinDot (parts.take (i + 1))))
  let moduleLower := pyLower (pyStrip moduleName)
  if moduleLower ≠ "" ∧ moduleLower ∉ scopes then scopes ++ [moduleLower] else scopes

/-- The in-memory indices `_resolve_relations` builds over the entity
table before resolving. -/
structure ResolveIndex where
  entityIdByQualname : List (String × Nat)
  entityIdByFileQualname : List ((String × String) × Nat)
  entityKindById : List (Nat × String)
  entityQualnameById : List (Nat × String)
  entityIdsByName : List (String × List Nat)
  entityIdsByModuleAndName : List ((String × String) × List Nat)
  entityIdsByClassAndName : List ((String × String) × List Nat)
  entityIdsBySuffix : List (String × List Nat)
  deriving Repr

def emptyResolveIndex : ResolveIndex := ⟨[], [], [], [], [], [], [], []⟩

/-- Every dotted suffix of a lowered qualname (`parts[idx:]` joined). -/
def qualnameSuffixes (qualnameLower : String) : List String :=
  let parts := pySplitDot qualnameLower
  (List.range parts.length).map (fun idx => joinDot (parts.drop idx))

def indexEntityRow (idx : ResolveIndex) (row : EntityRow) : ResolveIndex :=
  let qualname := pyStrip row.qualname
  let name := pyStrip row.name
  let kind := pyStrip row.kind
  let qualnameLower := pyLower qualname
  let nameLower := pyLower name
  let moduleName := pyLower (moduleNameFromPath row.file_path)
  let idx :=
    { idx with
      entityIdByQualname := dictSet idx.entityIdByQualname qualnameLower row.id,
      entityIdByFileQualname :=
        dictSet idx.entityIdByFileQualname (row.file_path, qualnameLower) row.id,
      entityKindById := dictSet idx.entityKindById row.id kind,
      entityQualnameById := dictSet idx.entityQualnameById row.id qualname,
      entityIdsByName := dictAppend idx.entityIdsByName nameLower row.id,
      entityIdsByModuleAndName :=
        dictAppend idx.entityIdsByModuleAndName (moduleName, nameLower) row.id }
  let idx :=
    if kind = "method" ∧ containsChar '.' qualnameLower then
      { idx with entityIdsByClassAndName :=
          (dictAppend idx.entityIdsByClassAndName
            (rsplitHead '.' qualnameLower, nameLower) row.id) }
    else idx
  { idx with entityIdsBySuffix :=
      ((qualnameSuffixes qualnameLower).foldl
        (fun m suffix => dictAppend m suffix row.id) idx.entityIdsBySuffix) }

def buildEntityIndex (rows : List EntityRow) : ResolveIndex :=
  rows.foldl indexEntityRow emptyResolveIndex

/-- Scope → imported-local-name → set of fully-qualified targets, built
from the store's `imports`/`imports_alias` rows. -/
def ImportsByScope : Type := List (String × List (String × List String))

def importsAddRow (m : ImportsByScope) (row : RelationRow) : ImportsByScope :=
  let scope := pyLower (pyStrip row.src_qualname)
  let rawValue := pyStrip row.dst_name
  let relationKind := pyLower (pyStrip row.relation)
  if scope = "" ∨ rawValue = "" then m
  else
    let scopedDict := (dictGet m scope).getD []
    if relationKind = "imports_alias" then
      let (al, target) := parseImportAlias rawValue
      if al ≠ "" ∧ target ≠ "" then
        dictSet m scope (dictSet scopedDict al (setAdd ((dictGet scopedDict al).getD []) target))
      else dictSet m scope scopedDict
    else
      let imported := pyLower rawValue
      let leaf := ((pySplitDot imported).getLast?).getD imported
      dictSet m scope (dictSet scopedDict leaf (setAdd ((dictGet scopedDict leaf).getD []) imported))

def buildImportsByScope (relations : List RelationRow) : ImportsByScope :=
  (relations.filter
      (fun r => r.relation == "imports" || r.relation == "imports_alias")).foldl
    importsAddRow []

/-- Translation of `_candidate_ids_for_symbol`. -/
def candidateIdsForSymbol (symbol : String)
    (entityIdByQualname : List (String × Nat))
    (entityIdsBySuffix : List (String × List Nat)) : List Nat :=
  let normalized := pyLower (pyStrip symbol)
  if normalized = "" then []
  else
    match dictGet entityIdByQualname normalized with
    | some direct => [direct]
    | none => uniqueInts ((dictGet entityIdsBySuffix normalized).getD [])

/-- `add_candidates`: keep the maximum confidence seen per entity id. -/
def addCandidate (cands : List (Nat × ℚ)) (entityId : Nat) (confidence : ℚ) :
    List (Nat × ℚ) :=
  let previous := (dictGet cands entityId).getD 0
  if previous < confidence then dictSet cands entityId confidence else cands

def addCandidates (cands : List (Nat × ℚ)) (ids : List Nat) (confidence : ℚ) :
    List (Nat × ℚ) :=
  ids.foldl (fun m i => addCandidate m i confidence) cands

/-- The `self.`/`cls.` member step of `_resolve_relation_destination`. -/
def selfClsStage (cands : List (Nat × ℚ)) (dst srcClassQual : String)
    (idx : ResolveIndex) : List (Nat × ℚ) :=
  if strStarts "self." dst ∨ strStarts "cls." dst then
    let member := partitionAfter '.' dst
    if srcClassQual ≠ "" ∧ member ≠ "" then
      addCandidates cands
        (candidateIdsForSymbol (srcClassQual ++ "." ++ member)
          idx.entityIdByQualname idx.entityIdsBySuffix) 0.98
    else cands
  else cands

/-- The bare-name / dotted-name step (class members at `0.97`, module
members at `0.93`, `module.dst` at `0.88`). -/
def bareDottedStage (cands : List (Nat × ℚ)) (dst srcClassQual moduleName : String)
    (idx : ResolveIndex) : List (Nat × ℚ) :=
  if ¬containsChar '.' dst then
    let cands :=
      if srcClassQual ≠ "" then
        let classIds :=
          uniqueInts ((dictGet idx.entityIdsByClassAndName (srcClassQual, dst)).getD [])
        if classIds.length = 1 then addCandidates cands classIds 0.97 else cands
      else cands
    let moduleIds :=
      uniqueInts ((dictGet idx.entityIdsByModuleAndName (moduleName, dst)).getD [])
    if moduleIds.length = 1 then addCandidates cands moduleIds 0.93 else cands
  else
    let moduleSymbol := if moduleName ≠ "" then moduleName ++ "." ++ dst else dst
    addCandidates cands
      (candidateIdsForSymbol moduleSymbol idx.entityIdByQualname idx.entityIdsBySuffix)
      0.88

/-- One iteration of the scope-chain import loop. -/
def scopeStageStep (dst : String) (idx : ResolveIndex)
    (importsByScope : ImportsByScope) (cands : List (Nat × ℚ))
    (sd : Nat × String) : List (Nat × ℚ) :=
  let depth := sd.1
  let scope := sd.2
  let scopedImports := (dictGet importsByScope scope).getD []
  if scopedImports = [] then cands
  else
    let baseConfidence := max 0.84 (0.95 - 0.02 * (depth : ℚ))
    if ¬containsChar '.' dst then
      ((dictGet scopedImports dst).getD []).foldl
        (fun cands imported =>
          addCandidates cands
            (candidateIdsForSymbol imported idx.entityIdByQualname
              idx.entityIdsBySuffix) baseConfidence) cands
    else
      let pre := partitionBefore '.' dst
      let suffix := partitionAfter '.' dst
      ((dictGet scopedImports pre).getD []).foldl
        (fun cands imported =>
          let composed := if suffix ≠ "" then imported ++ "." ++ suffix else imported
          addCandidates cands
            (candidateIdsForSymbol composed idx.entityIdByQualname
              idx.entityIdsBySuffix) (max 0 (baseConfidence - 0.01))) cands

/-- The scope-chain import loop. -/
def scopeStage (cands : List (Nat × ℚ)) (dst srcQualname moduleName : String)
    (idx : ResolveIndex) (importsByScope : ImportsByScope) : List (Nat × ℚ) :=
  (scopeChain srcQualname moduleName).enum.foldl
    (scopeStageStep dst idx importsByScope) cands

/-- The unique-qualname-suffix step (`0.86`). -/
def suffixStage (cands : List (Nat × ℚ)) (dst : String) (idx : ResolveIndex) :
    List (Nat × ℚ) :=
  let suffixIds := uniqueInts ((dictGet idx.entityIdsBySuffix dst).getD [])
  if suffixIds.length = 1 then addCandidates cands suffixIds 0.86 else cands

/-- The unique-global-name step (`0.80`). -/
def nameStage (cands : List (Nat × ℚ)) (dst : String) (idx : ResolveIndex) :
    List (Nat × ℚ) :=
  let nameIds := uniqueInts ((dictGet idx.entityIdsByName dst).getD [])
  if nameIds.length = 1 then addCandidates cands nameIds 0.80 else cands

/-- The candidate map `_resolve_relation_destination` accumulates before
its final `_pick_best_candidate` call (`dst` is the already
stripped-and-lowered raw target, known to be nonempty).  The stages mirror
the blocks of the Python function in order. -/
def collectCandidates (relationKind filePath srcQualname dst : String)
    (srcEntityId : Option Nat) (idx : ResolveIndex)
    (importsByScope : ImportsByScope) : List (Nat × ℚ) :=
  let moduleName := pyLower (moduleNameFromPath filePath)
  let srcKey : Option Nat :=
    match srcEntityId with
    | some i => if i = 0 then none else some i
    | none => none
  let srcKind := ((srcKey.bind (dictGet idx.entityKindById))).getD ""
  let srcQual := pyLower (((srcKey.bind (dictGet idx.entityQualnameById))).getD srcQualname)
  let srcClassQual :=
    if srcKind = "method" ∧ containsChar '.' srcQual then rsplitHead '.' srcQual
    else if srcKind = "class" then srcQual
    else ""
  let cands : List (Nat × ℚ) :=
    match dictGet idx.entityIdByQualname dst with
    | some direct => addCandidates [] [direct] 1.0
    | none => []
  if relationKind = "defines" then cands
  else
    nameStage
      (suffixStage
        (scopeStage
          (bareDottedStage
            (selfClsStage cands dst srcClassQual idx)
            dst srcClassQual moduleName idx)
          dst srcQualname moduleName idx importsByScope)
        dst idx)
      dst idx

/-- Translation of `_resolve_relation_destination`. -/
def resolveRelationDestination (relationKind filePath srcQualname dstName : String)
    (srcEntityId : Option Nat) (idx : ResolveIndex)
    (importsByScope : ImportsByScope) : Option Nat × ℚ :=
  let dst := pyLower (pyStrip dstName)
  if dst = "" then (none, 0)
  else
    pickBestCandidate
      (collectCandidates relationKind filePath srcQualname dst srcEntityId idx
        importsByScope)

/-- `round(float(confidence), 4)` (ties cannot occur at the values the
resolver produces, so the rounding mode is immaterial). -/
def round4 (x : ℚ) : ℚ := (Rat.floor (x * 10000 + 1 / 2) : ℚ) / 10000

/-- The per-row update `_resolve_relations` computes. -/
def resolveRow (idx : ResolveIndex) (importsByScope : ImportsByScope)
    (r : RelationRow) : RelationRow :=
  let srcQualname := pyStrip r.src_qualname
  let srcQualnameLower := pyLower srcQualname
  let relationKind := pyLower (pyStrip r.relation)
  let dstName := pyStrip r.dst_name
  let srcEntityId :=
    match dictGet idx.entityIdByFileQualname (r.file_path, srcQualnameLower) with
    | some i => some i
    | none => dictGet idx.entityIdByQualname srcQualnameLower
  let dc := resolveRelationDestination relationKind r.file_path srcQualname dstName
    srcEntityId idx importsByScope
  let resolved := srcEntityId.isSome && dc.1.isSome
  let confidence := if resolved then dc.2 else 0
  { r with src_entity_id := srcEntityId, dst_entity_id := dc.1,
           resolved := resolved, confidence := round4 confidence }

/-- Translation of `_resolve_relations`. -/
def resolveRelations (st : Store) : Store :=
  if st.relations = [] then st
  else if st.entities = [] then
    { st with relations := (st.relations.map
        (fun r => { r with src_entity_id := none, dst_entity_id := none,
                           resolved := false, confidence := 0 })) }
  else
    let idx := buildEntityIndex st.entities
    let importsByScope := buildImportsByScope st.relations
    { st with relations := st.relations.map (resolveRow idx importsByScope) }

/-! ### The derived-relation pass (`_derive_rich_relations`) -/

/-- The `instantiates` rows the `INSERT … SELECT` produces, in table
order, one per (resolved `calls` row, joined `class` entity) pair. -/
def instantiatesCandidates (kept : List RelationRow) (entities : List EntityRow) :
    List RelationRowData :=
  kept.flatMap (fun r =>
    if r.relation = "calls" ∧ r.resolved = true then
      (entities.filter
          (fun cls => decide (some cls.id = r.dst_entity_id ∧ cls.kind = "class"))).map
        (fun cls =>
          ⟨r.file_path, r.src_qualname, cls.qualname, "instantiates", r.line,
            r.src_entity_id, r.dst_entity_id, true, r.confidence⟩)
    else [])

/-- Translation of `_derive_rich_relations`. -/
def deriveRichRelations (st : Store) : Store :=
  let kept := st.relations.filter
    (fun r => !(r.relation == "instantiates" || r.relation == "overrides"))
  let st1 : Store := { st with relations := kept }
  let st2 := insertRelsOrIgnore st1 (instantiatesCandidates kept st.entities)
  let classRows := st.entities.filter (fun e => e.kind == "class")
  if classRows = [] then st2
  else
    let classIdByQualname :=
      classRows.foldl (fun m row => dictSet m (pyLower (pyStrip row.qualname)) row.id) []
    let methodRows := st.entities.filter (fun e => e.kind == "method")
    let methodsByClassAndName : List ((Nat × String) × List EntityRow) :=
      methodRows.foldl (fun m row =>
        let qualname := pyStrip row.qualname
        if containsChar '.' qualname then
          match dictGet classIdByQualname (pyLower (rsplitHead '.' qualname)) with
          | some classId => dictAppend m (classId, pyLower (pyStrip row.name)) row
          | none => m
        else m) []
    let inheritanceRows := st2.relations.filter
      (fun r => decide (r.relation = "inherits" ∧ r.resolved = true ∧
        r.src_entity_id.isSome ∧ r.dst_entity_id.isSome))
    let allPairs : List (EntityRow × EntityRow) :=
      inheritanceRows.flatMap (fun r =>
        let subclassId := r.src_entity_id.getD 0
        let baseClassId := r.dst_entity_id.getD 0
        let subclassMethodKeys :=
          (methodsByClassAndName.filter (fun kv => kv.1.1 == subclassId)).map
            (fun kv => kv.1.2)
        subclassMethodKeys.flatMap (fun methodName =>
          let subclassMethods := (dictGet methodsByClassAndName (subclassId, methodName)).getD []
          let baseMethods := (dictGet methodsByClassAndName (baseClassId, methodName)).getD []
          if subclassMethods = [] ∨ baseMethods = [] then []
          else subclassMethods.flatMap (fun sm => baseMethods.map (fun bm => (sm, bm)))))
    let overridePairs := dedupByKey (fun q => (q.1.id, q.2.id)) allPairs
    let overrideRows : List RelationRowData := overridePairs.map (fun q =>
      ⟨q.1.file_path, q.1.qualname, q.2.qualname, "overrides", q.1.line,
        some q.1.id, some q.2.id, true, 1⟩)
    insertRelsOrIgnore st2 overrideRows

/-! ### Build operations (`rebuild_entity_graph`, `update_entity_graph_incremental`)

The extractor output for each file enters as data (any `(Entity[],
Relation[])` pair), which covers every value the registered extractors can
produce; a changed file whose extraction is skipped (unsupported path,
size ceiling, read error) carries `none`. -/

inductive GraphOp where
  | rebuild (files : List (List EntityData × List RelationData))
  | incremental (changed : List (String × Option (List EntityData × List RelationData)))
      (deleted : List String)

def applyRebuild (st : Store) (files : List (List EntityData × List RelationData)) :
    Store :=
  let st0 : Store := { st with entities := [], relations := [] }
  let st1 := files.foldl indexFileContent st0
  deriveRichRelations (resolveRelations st1)

def applyIncremental (st : Store)
    (changed : List (String × Option (List EntityData × List RelationData)))
    (deleted : List String) : Store :=
  let touched := dedupByKey (fun p => p) (changed.map Prod.fst ++ deleted)
  let st0 := touched.foldl clearFileGraph st
  let st1 := changed.foldl (fun s c =>
    match c.2 with
    | some extraction => indexFileContent s extraction
    | none => s) st0
  deriveRichRelations (resolveRelations st1)

def applyGraphOp (st : Store) : GraphOp → Store
  | .rebuild files => applyRebuild st files
  | .incremental changed deleted => applyIncremental st changed deleted

def applyGraphOps (ops : List GraphOp) (st : Store) : Store :=
  ops.foldl applyGraphOp st

def emptyStore : Store := ⟨[], [], 1, 1⟩

/-- The §3 uniqueness invariants: no two entity rows share an
`(file_path, qualname, kind)` triple and no two relation rows share an
`(file_path, src_qualname, dst_name, relation, line)` tuple. -/
def uniqueInv (st : Store) : Prop :=
  st.entities.Pairwise (fun a b => entKey a ≠ entKey b) ∧
  st.relations.Pairwise (fun a b => relKey a ≠ relKey b)

/-! ### The public query interface (`find_entities`, `find_callers`,
`find_callees`, `find_subclasses`)

SQL is modelled over the store lists: `WHERE` is a filter, `ORDER BY` a
deterministic (stable insertion) sort on the order-by key, `LIMIT n` a
`take` (negative limits, as in SQLite, mean no limit), `LEFT JOIN ... ON
id = ...` a primary-key lookup, and `LIKE` the SQLite matcher (`%`, `_`,
ASCII-case-insensitive). -/

def likeMatch : List Char → List Char → Bool
  | [], [] => true
  | [], _ :: _ => false
  | p :: ps, s =>
    if p = '%' then
      likeMatch ps s ||
        (match s with
         | [] => false
         | _ :: s' => likeMatch (p :: ps) s')
    else
      match s with
      | [] => false
      | c :: s' => (p = '_' || c.toLower = p.toLower) && likeMatch ps s'
termination_by p s => (p.length, s.length)

def likeStr (pat s : String) : Bool := likeMatch pat.data s.data

def sqlLimit {α : Type} (n : Int) (l : List α) : List α :=
  if n < 0 then l else l.take n.toNat

def entityById (ents : List EntityRow) (id : Option Nat) : Option EntityRow :=
  match id with
  | some i => ents.find? (fun e => e.id == i)
  | none => none

structure EntityHit where
  file_path : String
  name : String
  qualname : String
  kind : String
  line : Int
  score : ℚ
  deriving DecidableEq, Repr

structure CallerHit where
  file_path : String
  caller : String
  callee : String
  line : Int
  caller_kind : String
  resolved : Bool
  confidence : ℚ
  deriving DecidableEq, Repr

structure CalleeHit where
  file_path : String
  caller : String
  callee : String
  line : Int
  callee_kind : String
  resolved : Bool
  confidence : ℚ
  deriving DecidableEq, Repr

structure SubclassHit where
  file_path : String
  subclass : String
  base_class : String
  line : Int
  resolved : Bool
  confidence : ℚ
  deriving DecidableEq, Repr

/-- The `CASE WHEN` rank of `find_entities`' `ORDER BY`. -/
def findRank (query : String) (e : EntityRow) : Nat :=
  if pyLower e.name = query then 0
  else if pyLower e.qualname = query then 1
  else if likeStr (query ++ "%") (pyLower e.name) then 2
  else 3

/-- `ORDER BY rank, qualname ASC` of `find_entities`. -/
def entOrd (query : String) (a b : EntityRow) : Prop :=
  findRank query a < findRank query b ∨
    (findRank query a = findRank query b ∧ a.qualname ≤ b.qualname)

instance (query : String) : DecidableRel (entOrd query) := fun a b => by
  unfold entOrd
  infer_instance

/-- `ORDER BY r.resolved DESC, r.confidence DESC, r.file_path ASC, r.line
ASC` shared by the three relation queries. -/
def relOrd (a b : RelationRow) : Prop :=
  (a.resolved = true ∧ b.resolved = false) ∨
    (a.resolved = b.resolved ∧
      (b.confidence < a.confidence ∨
        (a.confidence = b.confidence ∧
          (a.file_path < b.file_path ∨
            (a.file_path = b.file_path ∧ a.line ≤ b.line)))))

instance : DecidableRel relOrd := fun a b => by
  unfold relOrd
  infer_instance

/-- `find_entities` after `query = symbol.strip().lower()` is in hand. -/
def findEntitiesQuery (st : Store) (query : String) (kind : Option String)
    (lim : Int) : List EntityHit :=
  if query = "" then []
  else
    let containsPattern := "%" ++ query ++ "%"
    let matched := st.entities.filter (fun e =>
      (pyLower e.name == query || pyLower e.qualname == query ||
        likeStr containsPattern (pyLower e.name) ||
        likeStr containsPattern (pyLower e.qualname)) &&
      (match kind with
       | some k => k == "" || e.kind == k
       | none => true))
    (sqlLimit lim (List.insertionSort (entOrd query) matched)).map (fun e =>
      let name := pyLower e.name
      let qualname := pyLower e.qualname
      let score : ℚ :=
        if name = query then 1
        else if qualname = query then 0.95
        else if strStarts query name then 0.8
        else 0.65
      ⟨e.file_path, e.name, e.qualname, e.kind, e.line, score⟩)

def findEntities (st : Store) (symbol : String) (kind : Option String)
    (lim : Int) : List EntityHit :=
  findEntitiesQuery st (pyLower (pyStrip symbol)) kind lim

/-- `find_callers` after `query = symbol.strip().lower()` is in hand. -/
def findCallersQuery (st : Store) (query : String) (lim : Int)
    (resolvedOnly : Bool) : List CallerHit :=
  if query = "" then []
  else
    let suffixPat := "%." ++ query
    let containsPat := "%" ++ query ++ "%"
    let matched := st.relations.filter (fun r =>
      r.relation == "calls" &&
      (let dst := entityById st.entities r.dst_entity_id
       let dstName := pyLower ((dst.map EntityRow.name).getD "")
       let dstQual := pyLower ((dst.map EntityRow.qualname).getD "")
       pyLower r.dst_name == query ||
        likeStr suffixPat (pyLower r.dst_name) ||
        likeStr containsPat (pyLower r.dst_name) ||
        dstName == query || dstQual == query ||
        likeStr suffixPat dstQual || likeStr containsPat dstName) &&
      (!resolvedOnly || r.resolved))
    (sqlLimit lim (List.insertionSort relOrd matched)).map (fun r =>
      let src := entityById st.entities r.src_entity_id
      let dst := entityById st.entities r.dst_entity_id
      ⟨r.file_path,
        (src.map EntityRow.qualname).getD r.src_qualname,
        (dst.map EntityRow.qualname).getD r.dst_name,
        r.line,
        (src.map EntityRow.kind).getD "unknown",
        r.resolved, r.confidence⟩)

def findCallers (st : Store) (symbol : String) (lim : Int)
    (resolvedOnly : Bool) : List CallerHit :=
  findCallersQuery st (pyLower (pyStrip symbol)) lim resolvedOnly

/-- `find_callees` after `query = symbol.strip().lower()` is in hand. -/
def findCalleesQuery (st : Store) (query : String) (lim : Int)
    (resolvedOnly : Bool) : List CalleeHit :=
  if query = "" then []
  else
    let suffixPat := "%." ++ query
    let containsPat := "%" ++ query ++ "%"
    let matched := st.relations.filter (fun r =>
      r.relation == "calls" &&
      (let src := entityById st.entities r.src_entity_id
       let srcName := pyLower ((src.map EntityRow.name).getD "")
       let srcQual := pyLower ((src.map EntityRow.qualname).getD "")
       pyLower r.src_qualname == query ||
        likeStr suffixPat (pyLower r.src_qualname) ||
        srcName == query || srcQual == query ||
        likeStr suffixPat srcQual || likeStr containsPat srcName) &&
      (!resolvedOnly || r.resolved))
    (sqlLimit lim (List.insertionSort relOrd matched)).map (fun r =>
      let src := entityById st.entities r.src_entity_id
      let dst := entityById st.entities r.dst_entity_id
      ⟨r.file_path,
        (src.map EntityRow.qualname).getD r.src_qualname,
        (dst.map EntityRow.qualname).getD r.dst_name,
        r.line,
        (dst.map EntityRow.kind).getD "unknown",
        r.resolved, r.confidence⟩)

def findCallees (st : Store) (symbol : String) (lim : Int)
    (resolvedOnly : Bool) : List CalleeHit :=
  findCalleesQuery st (pyLower (pyStrip symbol)) lim resolvedOnly

/-- `find_subclasses` after `query = symbol.strip().lower()` is in hand. -/
def findSubclassesQuery (st : Store) (query : String) (lim : Int)
    (resolvedOnly : Bool) : List SubclassHit :=
  if query = "" then []
  else
    let suffixPat := "%." ++ query
    let containsPat := "%" ++ query ++ "%"
    let matched := st.relations.filter (fun r =>
      r.relation == "inherits" &&
      (let dst := entityById st.entities r.dst_entity_id
       let dstName := pyLower ((dst.map EntityRow.name).getD "")
       let dstQual := pyLower ((dst.map EntityRow.qualname).getD "")
       pyLower r.dst_name == query ||
        likeStr suffixPat (pyLower r.dst_name) ||
        likeStr containsPat (pyLower r.dst_name) ||
        dstName == query || dstQual == query ||
        likeStr suffixPat dstQual || likeStr containsPat dstName) &&
      (!resolvedOnly || r.resolved))
    (sqlLimit lim (List.insertionSort relOrd matched)).map (fun r =>
      let src := entityById st.entities r.src_entity_id
      let dst := entityById st.entities r.dst_entity_id
      ⟨r.file_path,
        (src.map EntityRow.qualname).getD r.src_qualname,
        (dst.map EntityRow.qualname).getD r.dst_name,
        r.line, r.resolved, r.confidence⟩)

def findSubclasses (st : Store) (symbol : String) (lim : Int)
    (resolvedOnly : Bool) : List SubclassHit :=
  findSubclassesQuery st (pyLower (pyStrip symbol)) lim resolvedOnly

/-! ### The heuristic JavaScript/TypeScript extractor
(`_extract_javascript_entities_fallback`)

The fallback drives a handful of `re` patterns over the (neutralized)
source.  The patterns are embedded verbatim into a small regex AST and run
by a fuelled backtracking matcher with Python `re` semantics for the
constructs the patterns use: leftmost match, greedy/lazy repetition,
ordered alternation, capture groups, multiline `^`, word boundary, and
single-character negative lookbehind.  `\w`/`\s` are taken at their ASCII
core, which is all the neutralized sources exercise. -/

def wordChar (c : Char) : Bool :=
  (65 ≤ c.toNat && c.toNat ≤ 90) || (97 ≤ c.toNat && c.toNat ≤ 122) ||
    (48 ≤ c.toNat && c.toNat ≤ 57) || c = '_'

/-- `[A-Za-z_$]`. -/
def identStart (c : Char) : Bool :=
  (65 ≤ c.toNat && c.toNat ≤ 90) || (97 ≤ c.toNat && c.toNat ≤ 122) ||
    c = '_' || c = '$'

/-- `[\w$]`. -/
def identChar (c : Char) : Bool := wordChar c || c = '$'

/-- `[\w$.]`. -/
def identDotChar (c : Char) : Bool := wordChar c || c = '$' || c = '.'

def quoteChar (c : Char) : Bool := c = '\'' || c = '"'

inductive Rx where
  | eps
  | chr (c : Char)
  | cls (f : Char → Bool)
  | seq (a b : Rx)
  | alt (a b : Rx)
  | star (a : Rx) (greedy : Bool)
  | grp (n : Nat) (a : Rx)
  | bol
  | wb
  | nlb (f : Char → Bool)

def rlit (s : String) : Rx := s.data.foldr (fun c r => Rx.seq (Rx.chr c) r) Rx.eps

def rseq (l : List Rx) : Rx := l.foldr Rx.seq Rx.eps

def ralts : List Rx → Rx
  | [] => Rx.eps
  | x :: xs => xs.foldl Rx.alt x

def rplus (a : Rx) (g : Bool) : Rx := Rx.seq a (Rx.star a g)

def ropt (a : Rx) (g : Bool) : Rx := if g then Rx.alt a Rx.eps else Rx.alt Rx.eps a

def rxSize : Rx → Nat
  | .eps => 1
  | .chr _ => 1
  | .cls _ => 1
  | .seq a b => rxSize a + rxSize b + 1
  | .alt a b => rxSize a + rxSize b + 1
  | .star a _ => rxSize a + 1
  | .grp _ a => rxSize a + 1
  | .bol => 1
  | .wb => 1
  | .nlb _ => 1

/-- The backtracking matcher in CPS: `prev` is the character just before
the current position (for `^`, `\b`, lookbehind), `k` the continuation
receiving the new `prev`, the remaining input and the captures.  Fuel
bounds the frame depth; the drivers below always supply enough for the
patterns at hand. -/
def rxm : Nat → Rx → Option Char → List Char →
    (Option Char → List Char → List (Nat × List Char) →
      Option (List Char × List (Nat × List Char))) →
    List (Nat × List Char) → Option (List Char × List (Nat × List Char))
  | 0, _, _, _, _, _ => none
  | _ + 1, .eps, prev, s, k, caps => k prev s caps
  | _ + 1, .chr c, _, s, k, caps =>
    match s with
    | [] => none
    | x :: rest => if x = c then k (some x) rest caps else none
  | _ + 1, .cls f, _, s, k, caps =>
    match s with
    | [] => none
    | x :: rest => if f x then k (some x) rest caps else none
  | fuel + 1, .seq a b, prev, s, k, caps =>
    rxm fuel a prev s (fun p' s' c' => rxm fuel b p' s' k c') caps
  | fuel + 1, .alt a b, prev, s, k, caps =>
    match rxm fuel a prev s k caps with
    | some r => some r
    | none => rxm fuel b prev s k caps
  | fuel + 1, .star a g, prev, s, k, caps =>
    if g then
      match rxm fuel a prev s (fun p' s' c' =>
          if s'.length < s.length then rxm fuel (.star a g) p' s' k c' else none) caps with
      | some r => some r
      | none => k prev s caps
    else
      match k prev s caps with
      | some r => some r
      | none =>
        rxm fuel a prev s (fun p' s' c' =>
          if s'.length < s.length then rxm fuel (.star a g) p' s' k c' else none) caps
  | fuel + 1, .grp n a, prev, s, k, caps =>
    rxm fuel a prev s
      (fun p' s' c' => k p' s' (dictSet c' n (s.take (s.length - s'.length)))) caps
  | _ + 1, .bol, prev, s, k, caps =>
    match prev with
    | none => k prev s caps
    | some c => if c = '\n' then k prev s caps else none
  | _ + 1, .wb, prev, s, k, caps =>
    let a := match prev with | some c => wordChar c | none => false
    let b := match s with | c :: _ => wordChar c | [] => false
    if a != b then k prev s caps else none
  | _ + 1, .nlb f, prev, s, k, caps =>
    match prev with
    | none => k prev s caps
    | some c => if f c then none else k prev s caps

/-- Try to match `r` anchored at the current position; on success returns
the consumed length and the captures. -/
def rxTry (r : Rx) (prev : Option Char) (s : List Char) :
    Option (Nat × List (Nat × List Char)) :=
  match rxm ((rxSize r + 2) * (s.length + 2)) r prev s (fun _ s' c' => some (s', c')) [] with
  | none => none
  | some (s', caps) => some (s.length - s'.length, caps)

/-- `re.finditer`: non-overlapping leftmost matches, as
`(start, end, captures)` triples. -/
def finditerAux (r : Rx) : Nat → Option Char → Nat → List Char →
    List (Nat × Nat × List (Nat × List Char))
  | 0, _, _, _ => []
  | fuel + 1, prev, pos, s =>
    match rxTry r prev s with
    | some (len, caps) =>
      if len = 0 then
        (pos, pos, caps) ::
          (match s with
           | [] => []
           | c :: rest => finditerAux r fuel (some c) (pos + 1) rest)
      else
        (pos, pos + len, caps) ::
          finditerAux r fuel (((s.take len).getLast?).orElse (fun _ => prev))
            (pos + len) (s.drop len)
    | none =>
      match s with
      | [] => []
      | c :: rest => finditerAux r fuel (some c) (pos + 1) rest

def rxFinditer (r : Rx) (s : List Char) : List (Nat × Nat × List (Nat × List Char)) :=
  finditerAux r (s.length + 1) none 0 s

/-- `re.search`: the first match only. -/
def rxSearch (r : Rx) (s : List Char) : Option (Nat × Nat × List (Nat × List Char)) :=
  (rxFinditer r s).head?

/-- `match.group(n)`, with `""` for an absent group (`or ""`). -/
def capStr (caps : List (Nat × List Char)) (n : Nat) : String :=
  String.mk ((dictGet caps n).getD [])

def rxWs : Rx := Rx.cls pyWs

def rxIdent : Rx := rseq [Rx.cls identStart, Rx.star (Rx.cls identChar) true]

def rxDeclKw : Rx := ralts [rlit "const", rlit "let", rlit "var"]

def rxQuoted (n : Nat) : Rx :=
  rseq [Rx.cls quoteChar, Rx.grp n (rplus (Rx.cls (fun c => !quoteChar c)) true),
    Rx.cls quoteChar]

/-- `import\s+([\s\S]*?)\s+from\s+['\"]([^'\"]+)['\"]\s*;?`. -/
def importRx : Rx :=
  rseq [rlit "import", rplus rxWs true,
    Rx.grp 1 (Rx.star (Rx.cls (fun _ => true)) false),
    rplus rxWs true, rlit "from", rplus rxWs true,
    rxQuoted 2, Rx.star rxWs true, ropt (Rx.chr ';') true]

/-- `(?m)^\s*import\s+['\"]([^'\"]+)['\"]\s*;?`. -/
def sideEffectImportRx : Rx :=
  rseq [Rx.bol, Rx.star rxWs true, rlit "import", rplus rxWs true,
    rxQuoted 1, Rx.star rxWs true, ropt (Rx.chr ';') true]

/-- `(?m)^\s*(?:const|let|var)\s+([A-Za-z_$][\w$]*)\s*=\s*require\(\s*['\"]([^'\"]+)['\"]\s*\)\s*;?`. -/
def requireRx : Rx :=
  rseq [Rx.bol, Rx.star rxWs true, rxDeclKw, rplus rxWs true,
    Rx.grp 1 rxIdent, Rx.star rxWs true, Rx.chr '=', Rx.star rxWs true,
    rlit "require(", Rx.star rxWs true, rxQuoted 2, Rx.star rxWs true,
    Rx.chr ')', Rx.star rxWs true, ropt (Rx.chr ';') true]

/-- `(?m)^\s*(?:const|let|var)\s*\{([^}]+)\}\s*=\s*require\(\s*['\"]([^'\"]+)['\"]\s*\)\s*;?`. -/
def requireDestrRx : Rx :=
  rseq [Rx.bol, Rx.star rxWs true, rxDeclKw, Rx.star rxWs true,
    Rx.chr '{', Rx.grp 1 (rplus (Rx.cls (fun c => !(c = '}'))) true), Rx.chr '}',
    Rx.star rxWs true, Rx.chr '=', Rx.star rxWs true,
    rlit "require(", Rx.star rxWs true, rxQuoted 2, Rx.star rxWs true,
    Rx.chr ')', Rx.star rxWs true, ropt (Rx.chr ';') true]

/-- `\b(?:export\s+)?(?:default\s+)?class\s+([A-Za-z_$][\w$]*)(?:\s+extends\s+([A-Za-z_$][\w$.]*))?\s*\{`. -/
def classRx : Rx :=
  rseq [Rx.wb, ropt (rseq [rlit "export", rplus rxWs true]) true,
    ropt (rseq [rlit "default", rplus rxWs true]) true,
    rlit "class", rplus rxWs true, Rx.grp 1 rxIdent,
    ropt (rseq [rplus rxWs true, rlit "extends", rplus rxWs true,
      Rx.grp 2 (rseq [Rx.cls identStart, Rx.star (Rx.cls identDotChar) true])]) true,
    Rx.star rxWs true, Rx.chr '{']

/-- `(?m)^\s*(?:async\s+)?([A-Za-z_$][\w$]*)\s*\([^)]*\)\s*\{`. -/
def methodRx : Rx :=
  rseq [Rx.bol, Rx.star rxWs true, ropt (rseq [rlit "async", rplus rxWs true]) true,
    Rx.grp 1 rxIdent, Rx.star rxWs true,
    Rx.chr '(', Rx.star (Rx.cls (fun c => !(c = ')'))) true, Rx.chr ')',
    Rx.star rxWs true, Rx.chr '{']

/-- The first function pattern: `(?m)^\s*(?:export\s+)?(?:default\s+)?(?:async\s+)?function\s+([A-Za-z_$][\w$]*)\s*\([^)]*\)\s*\{`. -/
def funDeclRx : Rx :=
  rseq [Rx.bol, Rx.star rxWs true, ropt (rseq [rlit "export", rplus rxWs true]) true,
    ropt (rseq [rlit "default", rplus rxWs true]) true,
    ropt (rseq [rlit "async", rplus rxWs true]) true,
    rlit "function", rplus rxWs true, Rx.grp 1 rxIdent, Rx.star rxWs true,
    Rx.chr '(', Rx.star (Rx.cls (fun c => !(c = ')'))) true, Rx.chr ')',
    Rx.star rxWs true, Rx.chr '{']

/-- The second function pattern: `(?m)^\s*(?:export\s+)?(?:const|let|var)\s+([A-Za-z_$][\w$]*)\s*=\s*(?:async\s+)?function\b[^{]*\{`. -/
def funExprRx : Rx :=
  rseq [Rx.bol, Rx.star rxWs true, ropt (rseq [rlit "export", rplus rxWs true]) true,
    rxDeclKw, rplus rxWs true, Rx.grp 1 rxIdent, Rx.star rxWs true,
    Rx.chr '=', Rx.star rxWs true,
    ropt (rseq [rlit "async", rplus rxWs true]) true,
    rlit "function", Rx.wb, Rx.star (Rx.cls (fun c => !(c = '{'))) true, Rx.chr '{']

/-- The third function pattern: `(?m)^\s*(?:export\s+)?(?:const|let|var)\s+([A-Za-z_$][\w$]*)\s*=\s*(?:async\s*)?(?:\([^)]*\)|[A-Za-z_$][\w$]*)\s*=>\s*\{`. -/
def arrowFunRx : Rx :=
  rseq [Rx.bol, Rx.star rxWs true, ropt (rseq [rlit "export", rplus rxWs true]) true,
    rxDeclKw, rplus rxWs true, Rx.grp 1 rxIdent, Rx.star rxWs true,
    Rx.chr '=', Rx.star rxWs true,
    ropt (rseq [rlit "async", Rx.star rxWs true]) true,
    Rx.alt (rseq [Rx.chr '(', Rx.star (Rx.cls (fun c => !(c = ')'))) true, Rx.chr ')'])
      rxIdent,
    Rx.star rxWs true, rlit "=>", Rx.star rxWs true, Rx.chr '{']

/-- `(?<![\w$.])([A-Za-z_$][\w$]*(?:\.[A-Za-z_$][\w$]*)*)\s*\(` of `_collect_js_calls`. -/
def callRx : Rx :=
  rseq [Rx.nlb identDotChar,
    Rx.grp 1 (rseq [rxIdent, Rx.star (rseq [Rx.chr '.', rxIdent]) true]),
    Rx.star rxWs true, Rx.chr '(']

/-- `\*\s+as\s+([A-Za-z_$][\w$]*)` of `_add_js_import_relations`. -/
def starAsRx : Rx :=
  rseq [Rx.chr '*', rplus rxWs true, rlit "as", rplus rxWs true, Rx.grp 1 rxIdent]

/-- `\{([^}]*)\}` (DOTALL) of `_add_js_import_relations`. -/
def bracesRx : Rx :=
  rseq [Rx.chr '{', Rx.grp 1 (Rx.star (Rx.cls (fun c => !(c = '}'))) true), Rx.chr '}']

/-! #### The fallback's helpers -/

/-- `_line_for_offset`. -/
def lineForOffset (text : List Char) (offset : Nat) : Nat :=
  (text.take offset).countP (fun c => c = '\n') + 1

def findBraceAux : List Char → Nat → Nat → Option Nat
  | [], _, _ => none
  | c :: rest, idx, depth =>
    if c = '{' then findBraceAux rest (idx + 1) (depth + 1)
    else if c = '}' then
      if depth = 1 then some idx else findBraceAux rest (idx + 1) (depth - 1)
    else findBraceAux rest (idx + 1) depth

/-- `_find_matching_brace`. -/
def findMatchingBrace (text : List Char) (openIdx : Nat) : Option Nat :=
  if openIdx < text.length ∧ text.getD openIdx ' ' = '{' then
    findBraceAux (text.drop (openIdx + 1)) (openIdx + 1) 1
  else none

/-- `depth_prefix[pos]` (brace depth after the first `pos` characters,
clamped at zero). -/
def depthAt (neutral : List Char) (pos : Nat) : Nat :=
  (neutral.take pos).foldl
    (fun d c => if c = '{' then d + 1 else if c = '}' then d - 1 else d) 0

def sliceChars (l : List Char) (s e : Nat) : List Char := (l.drop s).take (e - s)

/-- First index at which `sep` occurs as a contiguous sublist. -/
def strFindSub (sep : List Char) : List Char → Option Nat
  | [] => if sep = [] then some 0 else none
  | c :: rest =>
    if sep.isPrefixOf (c :: rest) then some 0
    else (strFindSub sep rest).map (· + 1)

/-- `s.split(sep, 1)` when `sep` occurs in `s` (otherwise `none`). -/
def split1Sub (sep s : String) : Option (String × String) :=
  match strFindSub sep.data s.data with
  | none => none
  | some i => some (String.mk (s.data.take i), String.mk (s.data.drop (i + sep.data.length)))

def pyRstripChar (c : Char) (s : String) : String :=
  String.mk ((s.data.reverse.dropWhile (· = c)).reverse)

def jsExtSuffixes : List String := [".js", ".jsx", ".mjs", ".cjs", ".ts", ".tsx"]

/-- `re.subn(r"\.(js|jsx|mjs|cjs|ts|tsx)$", "", raw, flags=re.IGNORECASE)`:
at most one of the alternatives can sit at the end of the string, so the
substitution strips that suffix (case-insensitively) when present. -/
def stripJsExt (raw : String) : String :=
  match jsExtSuffixes.find? (fun ext => ext.data.isSuffixOf (pyLower raw).data) with
  | some ext => String.mk (raw.data.take (raw.data.length - ext.data.length))
  | none => raw

/-- `_resolve_js_import_symbol`. -/
def resolveJsImportSymbol (moduleName impPath : String) : String :=
  let raw := replaceBackslashes (pyStrip impPath)
  if raw = "" then ""
  else
    let pathValue := stripJsExt raw
    if strStarts "." pathValue then
      let currentParts := ((pySplitDot moduleName).dropLast).filter (fun p => !(p = ""))
      let finalParts := ((splitOnChar '/' pathValue.data).map String.mk).foldl
        (fun acc part =>
          if part = "" ∨ part = "." then acc
          else if part = ".." then acc.dropLast
          else acc ++ [part]) currentParts
      joinDot finalParts
    else
      String.mk (pathValue.data.map (fun c => if c = '/' then '.' else c))

/-- The `add_alias` closure of `_add_js_import_relations`. -/
def addAliasRel (fp moduleScope : String) (line : Nat) (localName target : String) :
    List RelationData :=
  let al := pyStrip localName
  let dst := pyStrip target
  if al ≠ "" ∧ dst ≠ "" then
    addRelationRows fp moduleScope (al ++ "=" ++ dst) "imports_alias" line
  else []

/-- One item of the named-import group `{...}`. -/
def namedItemRels (fp moduleScope moduleSymbol : String) (line : Nat)
    (rawItem : String) : List RelationData :=
  let token := pyStrip rawItem
  if token = "" then []
  else
    let token :=
      if strStarts "type " token then pyStrip (String.mk (token.data.drop 5)) else token
    if token = "" then []
    else
      let (importedName, aliasName) :=
        match split1Sub " as " token with
        | some (a, b) => (pyStrip a, pyStrip b)
        | none =>
          match split1Sub ":" token with
          | some (a, b) => (pyStrip a, pyStrip b)
          | none => (token, token)
      if importedName = "" then []
      else
        let fullTarget := moduleSymbol ++ "." ++ importedName
        addRelationRows fp moduleScope fullTarget "imports" line ++
          addAliasRel fp moduleScope line
            (if aliasName = "" then importedName else aliasName) fullTarget

/-- `_add_js_import_relations`. -/
def addJsImportRelations (fp moduleScope : String) (line : Nat)
    (moduleSymbol specifier : String) : List RelationData :=
  let spec := pyStrip specifier
  if moduleSymbol = "" then []
  else
    let base := addRelationRows fp moduleScope moduleSymbol "imports" line
    let starRels :=
      match rxSearch starAsRx spec.data with
      | some m => addAliasRel fp moduleScope line (capStr m.2.2 1) moduleSymbol
      | none => []
    let namedRels :=
      match rxSearch bracesRx spec.data with
      | some m =>
        ((splitOnChar ',' ((dictGet m.2.2 1).getD [])).map
          (fun item => namedItemRels fp moduleScope moduleSymbol line (String.mk item))).flatten
      | none => []
    let defaultPart :=
      if containsChar '{' spec then pyRstripChar ',' (pyStrip (partitionBefore '{' spec))
      else spec
    let defaultPart := if containsChar '*' defaultPart then "" else defaultPart
    let defaultName := pyStrip defaultPart
    let defaultRels :=
      if defaultName ≠ "" ∧ defaultName ≠ "type" then
        addAliasRel fp moduleScope line defaultName moduleSymbol
      else []
    base ++ starRels ++ namedRels ++ defaultRels

def jsCallSkip : List String :=
  ["if", "for", "while", "switch", "catch", "return", "typeof", "await",
   "function", "import"]

/-- `_collect_js_calls`. -/
def collectJsCalls (body : List Char) : List (String × Nat) :=
  (rxFinditer callRx body).filterMap (fun m =>
    let callee := capStr m.2.2 1
    if jsCallSkip.contains callee then none else some (callee, m.1))

def jsMethodSkip : List String := ["if", "for", "while", "switch", "catch"]

/-- The fallback's mutable state: the `entities`/`relations` accumulators,
the `entity_keys` set and the `scoped_blocks` list. -/
structure JsExtractState where
  ents : List EntityData
  rels : List RelationData
  keys : List (String × String)
  blocks : List (String × Nat × Nat)

/-- One iteration of the inner `method_pattern` loop of the class loop. -/
def methodStep (fp : String) (cdata neutral : List Char) (classQual : String)
    (bodyStart bodyEnd : Nat) (st : JsExtractState)
    (mm : Nat × Nat × List (Nat × List Char)) : JsExtractState :=
  let methodName := capStr mm.2.2 1
  if jsMethodSkip.contains methodName then st
  else
    let absStart := bodyStart + mm.1
    let methodLine := lineForOffset cdata absStart
    let methodQual := classQual ++ "." ++ methodName
    let st :=
      if st.keys.contains (methodQual, "method") then st
      else
        { st with
            ents := st.ents ++ [⟨fp, methodName, methodQual, "method", methodLine⟩],
            rels := (st.rels ++ addRelationRows fp classQual methodQual "defines" methodLine),
            keys := st.keys ++ [(methodQual, "method")] }
    let methodOpen := bodyStart + mm.2.1 - 1
    match findMatchingBrace neutral methodOpen with
    | none => st
    | some mc =>
      if bodyEnd < mc then st
      else { st with blocks := st.blocks ++ [(methodQual, methodOpen + 1, mc)] }

/-- One iteration of the `class_pattern` loop (including its inner
`method_pattern` loop). -/
def classStep (fp : String) (cdata neutral : List Char) (moduleScope : String)
    (st : JsExtractState) (m : Nat × Nat × List (Nat × List Char)) : JsExtractState :=
  let className := capStr m.2.2 1
  let baseName := pyStrip (capStr m.2.2 2)
  let line := lineForOffset cdata m.1
  let classQual := moduleScope ++ "." ++ className
  let st :=
    if st.keys.contains (classQual, "class") then st
    else
      { st with ents := st.ents ++ [⟨fp, className, classQual, "class", line⟩],
                rels := (st.rels ++ addRelationRows fp moduleScope classQual "defines" line),
                keys := st.keys ++ [(classQual, "class")] }
  let st :=
    if baseName ≠ "" then
      { st with rels := (st.rels ++ addRelationRows fp classQual baseName "inherits" line) }
    else st
  let classOpen := m.2.1 - 1
  match findMatchingBrace neutral classOpen with
  | none => st
  | some classClose =>
    let bodyStart := classOpen + 1
    let bodyEnd := classClose
    let classBody := sliceChars neutral bodyStart bodyEnd
    (rxFinditer methodRx classBody).foldl
      (methodStep fp cdata neutral classQual bodyStart bodyEnd) st

/-- One iteration of the `function_patterns` loops. -/
def funStep (fp : String) (cdata neutral : List Char) (moduleScope : String)
    (st : JsExtractState) (m : Nat × Nat × List (Nat × List Char)) : JsExtractState :=
  if depthAt neutral m.1 ≠ 0 then st
  else
    let functionName := capStr m.2.2 1
    let functionQual := moduleScope ++ "." ++ functionName
    let line := lineForOffset cdata m.1
    let st :=
      if st.keys.contains (functionQual, "function") then st
      else
        { st with ents := st.ents ++ [⟨fp, functionName, functionQual, "function", line⟩],
                  rels := (st.rels ++ addRelationRows fp moduleScope functionQual "defines" line),
                  keys := st.keys ++ [(functionQual, "function")] }
    let functionOpen := m.2.1 - 1
    match findMatchingBrace neutral functionOpen with
    | none => st
    | some fc => { st with blocks := st.blocks ++ [(functionQual, functionOpen + 1, fc)] }

/-- `_extract_javascript_entities_fallback`. -/
def extractJavascriptEntitiesFallback (fp content : String) :
    List EntityData × List RelationData :=
  let neutral := (neutralizeJsContent content).data
  let cdata := content.data
  let moduleName := moduleNameFromPath fp
  let moduleScope := moduleName
  let importRels := ((rxFinditer importRx cdata).map (fun m =>
    let specifier := pyStrip (capStr m.2.2 1)
    let impPath := pyStrip (capStr m.2.2 2)
    let moduleSymbol := resolveJsImportSymbol moduleName impPath
    addJsImportRelations fp moduleScope (lineForOffset cdata m.1) moduleSymbol
      specifier)).flatten
  let sideRels := ((rxFinditer sideEffectImportRx cdata).map (fun m =>
    let impPath := pyStrip (capStr m.2.2 1)
    let moduleSymbol := resolveJsImportSymbol moduleName impPath
    if moduleSymbol ≠ "" then
      addRelationRows fp moduleScope moduleSymbol "imports" (lineForOffset cdata m.1)
    else [])).flatten
  let requireRels := ((rxFinditer requireRx cdata).map (fun m =>
    let localName := capStr m.2.2 1
    let impPath := pyStrip (capStr m.2.2 2)
    let moduleSymbol := resolveJsImportSymbol moduleName impPath
    let line := lineForOffset cdata m.1
    if moduleSymbol ≠ "" then
      addRelationRows fp moduleScope moduleSymbol "imports" line ++
        addRelationRows fp moduleScope (localName ++ "=" ++ moduleSymbol)
          "imports_alias" line
    else [])).flatten
  let requireDestrRels := ((rxFinditer requireDestrRx cdata).map (fun m =>
    let importSpec := pyStrip (capStr m.2.2 1)
    let impPath := pyStrip (capStr m.2.2 2)
    let moduleSymbol := resolveJsImportSymbol moduleName impPath
    let line := lineForOffset cdata m.1
    if moduleSymbol = "" then []
    else
      addRelationRows fp moduleScope moduleSymbol "imports" line ++
        ((splitOnChar ',' importSpec.data).map (fun item =>
          let token := pyStrip (String.mk item)
          if token = "" then []
          else
            let (importedName, aliasName) :=
              match split1Sub ":" token with
              | some (a, b) => (pyStrip a, pyStrip b)
              | none => (token, token)
            if importedName = "" then []
            else
              let fullTarget := moduleSymbol ++ "." ++ importedName
              addRelationRows fp moduleScope fullTarget "imports" line ++
                addRelationRows fp moduleScope (aliasName ++ "=" ++ fullTarget)
                  "imports_alias" line)).flatten)).flatten
  let st0 : JsExtractState :=
    ⟨[⟨fp, moduleName, moduleName, "module", 1⟩],
      importRels ++ sideRels ++ requireRels ++ requireDestrRels,
      [(moduleScope, "module")], []⟩
  let st1 := (rxFinditer classRx neutral).foldl (classStep fp cdata neutral moduleScope) st0
  let st2 := [funDeclRx, funExprRx, arrowFunRx].foldl (fun st p =>
    (rxFinditer p neutral).foldl (funStep fp cdata neutral moduleScope) st) st1
  let callRels := (st2.blocks.map (fun b =>
    ((collectJsCalls (sliceChars neutral b.2.1 b.2.2)).map (fun cr =>
      addRelationRows fp b.1 cr.1 "calls"
        (lineForOffset cdata (b.2.1 + cr.2)))).flatten)).flatten
  (st2.ents, st2.rels ++ callRels)

/-- `extract_javascript_entities`: the oxc-parser path is an external
subprocess, so its outcome enters the embedding as an optional result
(`none` models every fallback condition: parser unavailable, crash, parse
failure, malformed driver output). -/
def extractJavascriptEntities (oxc : Option (List EntityData × List RelationData))
    (fp content : String) : List EntityData × List RelationData :=
  match oxc with
  | some extracted => extracted
  | none => extractJavascriptEntitiesFallback fp content

/-- `Path(s).suffix`. -/
def pathSuffix (s : String) : String :=
  let name := ((pathParts s).getLast?).getD ""
  match lastIdxOf '.' name.data with
  | none => ""
  | some i => if 0 < i ∧ i + 1 < name.data.length then String.mk (name.data.drop i) else ""

/-- `EntityExtractorRegistry.extract_for_path` over the default registry
(`_register_default_extractors`): dispatch on the lowered path suffix;
unsupported paths yield `([], [])`. -/
def extractForPath (oxc : Option (List EntityData × List RelationData))
    (pyParsed : Option PyNodes) (fp content : String) :
    List EntityData × List RelationData :=
  let ext := pyLower (pathSuffix fp)
  if ext = ".py" then extractPythonEntities fp pyParsed
  else if ext = ".js" ∨ ext = ".jsx" ∨ ext = ".mjs" ∨ ext = ".cjs" ∨
      ext = ".ts" ∨ ext = ".tsx" then
    extractJavascriptEntities oxc fp content
  else ([], [])

/-- Pointwise relation between an input character and the character the
neutralizer emits at the same offset. -/
def neutralOk (cin cout : Char) : Prop :=
  (cin = '\n' → cout = '\n') ∧ (cout = cin ∨ cout = ' ')

theorem quote_ne_newline {c : Char} (h : (c = '\'' ∨ c = '"') ∨ c = '`') :
    ¬c = '\n' := by
  rcases h with (rfl | rfl) | rfl <;> decide

theorem forall₂_neutralizeGo : ∀ (st : JsScanState) (l : List Char),
    (∀ q, st = JsScanState.strLit q → ¬q = '\n') →
    List.Forall₂ neutralOk l (neutralizeGo st l) := by
  intro st l
  induction st, l using neutralizeGo.induct <;> intro hq <;>
    simp_all [neutralizeGo, List.forall₂_cons, neutralOk] <;>
    first
      | (split_ifs <;> simp_all)
      | (rename_i hquote ih
         have hc := quote_ne_newline hquote
         exact ⟨hc, ih hc⟩)

theorem rankCandidates_perm (c : List (Nat × ℚ)) : List.Perm (rankCandidates c) c :=
  List.perm_insertionSort _ _

theorem rankCandidates_sorted (c : List (Nat × ℚ)) :
    List.Sorted scoreGE (rankCandidates c) :=
  List.sorted_insertionSort _ _

/-- Claim C9: the neutralized copy produced by `_neutralize_js_content` has
exactly the same length as the input, every newline character of the input
appears unchanged at the same offset in the output, and every output
character is either the corresponding input character or a space. -/
theorem claim_C9 (content : String) :
    (neutralizeJsContent content).length = content.length ∧
    ∀ (i : Nat) (h1 : i < content.data.length)
      (h2 : i < (neutralizeJsContent content).data.length),
      (content.data.get ⟨i, h1⟩ = '\n' →
        (neutralizeJsContent content).data.get ⟨i, h2⟩ = '\n') ∧
      ((neutralizeJsContent content).data.get ⟨i, h2⟩ = content.data.get ⟨i, h1⟩ ∨
       (neutralizeJsContent content).data.get ⟨i, h2⟩ = ' ') := by
  have hf := forall₂_neutralizeGo .code content.data (by intro q h; cases h)
  constructor
  · exact (hf.length_eq).symm
  · intro i h1 h2
    have hi := hf.get h1 h2
    exact ⟨hi.1, hi.2⟩

theorem claim_C9_witness :
    ((neutralizeJsContent "a\"b\"\n//c").length = ("a\"b\"\n//c" : String).length ∧
      ∀ (i : Nat) (h1 : i < ("a\"b\"\n//c" : String).data.length)
        (h2 : i < (neutralizeJsContent "a\"b\"\n//c").data.length),
        (("a\"b\"\n//c" : String).data.get ⟨i, h1⟩ = '\n' →
          (neutralizeJsContent "a\"b\"\n//c").data.get ⟨i, h2⟩ = '\n') ∧
        ((neutralizeJsContent "a\"b\"\n//c").data.get ⟨i, h2⟩ =
            ("a\"b\"\n//c" : String).data.get ⟨i, h1⟩ ∨
         (neutralizeJsContent "a\"b\"\n//c").data.get ⟨i, h2⟩ = ' ')) ∧
    neutralizeJsContent "a\"b\"\n//c" = "a   \n   " :=
  ⟨claim_C9 "a\"b\"\n//c", by decide⟩

/-- Claim C1: for every candidate map produced while resolving one
relation's destination, the final pick obeys: zero candidates yields no
destination entity and confidence `0.0`; exactly one candidate yields that
entity with its score; with several candidates, the highest-scoring entity
is picked only if its score exceeds the runner-up's by at least `0.15`,
and otherwise no entity is picked and the confidence is `0.0`. -/
theorem claim_C1 (c : List (Nat × ℚ)) (hnd : (c.map Prod.fst).Nodup) :
    (c = [] → pickBestCandidate c = (none, 0)) ∧
    (∀ x, c = [x] → pickBestCandidate c = (some x.1, x.2)) ∧
    (2 ≤ c.length →
      ((∃ top, top ∈ c ∧ pickBestCandidate c = (some top.1, top.2) ∧
          (∀ p ∈ c, p.2 ≤ top.2) ∧
          (∀ p ∈ c, p.1 ≠ top.1 → p.2 + 0.15 ≤ top.2)) ∨
       (pickBestCandidate c = (none, 0) ∧
        ¬∃ top, top ∈ c ∧ ∀ p ∈ c, p.1 ≠ top.1 → p.2 + 0.15 ≤ top.2))) := by
  rcases c with _ | ⟨x, _ | ⟨y, l⟩⟩
  · refine ⟨fun _ => rfl, ?_, ?_⟩
    · intro x hx; cases hx
    · intro h; simp at h
  · refine ⟨?_, ?_, ?_⟩
    · intro h; cases h
    · intro z hz; cases hz; rfl
    · intro h; simp at h
  · refine ⟨?_, ?_, fun _ => ?_⟩
    · intro h; cases h
    · intro z hz; cases hz
    have hperm := rankCandidates_perm (x :: y :: l)
    have hsort := rankCandidates_sorted (x :: y :: l)
    have hlen : (rankCandidates (x :: y :: l)).length = (x :: y :: l).length :=
      hperm.length_eq
    rcases hr : rankCandidates (x :: y :: l) with _ | ⟨t, _ | ⟨s, r⟩⟩ <;>
      rw [hr] at hlen <;> simp at hlen
    rw [hr] at hperm hsort
    have hmem : ∀ p, p ∈ (x :: y :: l) ↔ p ∈ t :: s :: r := fun p => (hperm.mem_iff).symm
    have htmax : ∀ p ∈ t :: s :: r, p.2 ≤ t.2 := by
      intro p hp
      rcases List.mem_cons.mp hp with rfl | hp'
      · exact le_refl _
      · exact (List.sorted_cons.mp hsort).1 p hp'
    have hsmax : ∀ p ∈ s :: r, p.2 ≤ s.2 := by
      intro p hp
      rcases List.mem_cons.mp hp with rfl | hp'
      · exact le_refl _
      · exact (List.sorted_cons.mp (List.sorted_cons.mp hsort).2).1 p hp'
    have hpick : pickBestCandidate (x :: y :: l) =
        if (0.15 : ℚ) ≤ t.2 - s.2 then (some t.1, t.2) else (none, 0) := by
      simp only [pickBestCandidate, hr]
      rfl
    by_cases hgap : (0.15 : ℚ) ≤ t.2 - s.2
    · left
      refine ⟨t, (hmem t).mpr (by simp), by rw [hpick, if_pos hgap], ?_, ?_⟩
      · intro p hp; exact htmax p ((hmem p).mp hp)
      · intro p hp hne
        rcases List.mem_cons.mp ((hmem p).mp hp) with rfl | hp'
        · exact absurd rfl hne
        · have := hsmax p hp'
          linarith
    · right
      refine ⟨by rw [hpick, if_neg hgap], ?_⟩
      rintro ⟨top, htop, hdom⟩
      have hnd' : ((t :: s :: r).map Prod.fst).Nodup := by
        have : List.Perm ((x :: y :: l).map Prod.fst) ((t :: s :: r).map Prod.fst) :=
          (hperm.symm).map Prod.fst
        exact this.nodup_iff.mp hnd
      have hts : t.1 ≠ s.1 := by
        simp only [List.map_cons, List.nodup_cons, List.mem_cons, List.mem_map] at hnd'
        intro h; exact hnd'.1 (Or.inl h)
      have htopmax : top.2 ≤ t.2 := htmax top ((hmem top).mp htop)
      by_cases hst : s.1 = top.1
      · have hne : t.1 ≠ top.1 := hst ▸ hts
        have := hdom t ((hmem t).mpr (by simp)) hne
        linarith
      · have := hdom s ((hmem s).mpr (by simp)) hst
        have hs2 : s.2 + 0.15 ≤ t.2 := le_trans this htopmax
        linarith

theorem claim_C1_witness :
    (([((1 : Nat), (1 : ℚ)), (2, 1/2)] : List (Nat × ℚ)) = [] →
        pickBestCandidate [((1 : Nat), (1 : ℚ)), (2, 1/2)] = (none, 0)) ∧
    (∀ x, ([((1 : Nat), (1 : ℚ)), (2, 1/2)] : List (Nat × ℚ)) = [x] →
        pickBestCandidate [((1 : Nat), (1 : ℚ)), (2, 1/2)] = (some x.1, x.2)) ∧
    (2 ≤ ([((1 : Nat), (1 : ℚ)), (2, 1/2)] : List (Nat × ℚ)).length →
      ((∃ top, top ∈ ([((1 : Nat), (1 : ℚ)), (2, 1/2)] : List (Nat × ℚ)) ∧
          pickBestCandidate [((1 : Nat), (1 : ℚ)), (2, 1/2)] = (some top.1, top.2) ∧
          (∀ p ∈ ([((1 : Nat), (1 : ℚ)), (2, 1/2)] : List (Nat × ℚ)), p.2 ≤ top.2) ∧
          (∀ p ∈ ([((1 : Nat), (1 : ℚ)), (2, 1/2)] : List (Nat × ℚ)),
            p.1 ≠ top.1 → p.2 + 0.15 ≤ top.2)) ∨
       (pickBestCandidate [((1 : Nat), (1 : ℚ)), (2, 1/2)] = (none, 0) ∧
        ¬∃ top, top ∈ ([((1 : Nat), (1 : ℚ)), (2, 1/2)] : List (Nat × ℚ)) ∧
          ∀ p ∈ ([((1 : Nat), (1 : ℚ)), (2, 1/2)] : List (Nat × ℚ)),
            p.1 ≠ top.1 → p.2 + 0.15 ≤ top.2))) :=
  claim_C1 [(1, 1), (2, 1/2)] (by decide)

/-! ### Split/join infrastructure -/

theorem splitOnChar_ne_nil (sep : Char) (l : List Char) : splitOnChar sep l ≠ [] := by
  induction l with
  | nil => simp [splitOnChar]
  | cons c rest ih =>
    simp only [splitOnChar]
    split
    · simp
    · split_ifs <;> simp

theorem splitOnChar_no_sep (sep : Char) (l : List Char) (h : sep ∉ l) :
    splitOnChar sep l = [l] := by
  induction l with
  | nil => rfl
  | cons c rest ih =>
    have hc : ¬c = sep := by rintro rfl; exact h (List.mem_cons_self _ _)
    have hr := ih (fun hm => h (List.mem_cons_of_mem _ hm))
    simp [splitOnChar, hr, hc]

theorem splitOnChar_cons_sep (sep : Char) (l : List Char) :
    splitOnChar sep (sep :: l) = [] :: splitOnChar sep l := by
  simp only [splitOnChar]
  rcases h : splitOnChar sep l with _ | ⟨p, ps⟩
  · exact absurd h (splitOnChar_ne_nil sep l)
  · simp

theorem splitOnChar_append (sep : Char) (a : List Char) {l : List Char} {p ps}
    (ha : sep ∉ a) (h : splitOnChar sep l = p :: ps) :
    splitOnChar sep (a ++ l) = (a ++ p) :: ps := by
  induction a with
  | nil => simpa using h
  | cons x a ih =>
    have hx : ¬x = sep := by rintro rfl; exact ha (List.mem_cons_self _ _)
    have hr := ih (fun hm => ha (List.mem_cons_of_mem _ hm))
    simp [splitOnChar, hr, hx]

theorem splitOnChar_joinChar (sep : Char) :
    ∀ (parts : List (List Char)), parts ≠ [] → (∀ p ∈ parts, sep ∉ p) →
      splitOnChar sep (joinChar sep parts) = parts
  | [], h, _ => absurd rfl h
  | [p], _, hp => by
    simpa [joinChar] using splitOnChar_no_sep sep p (hp p (by simp))
  | p :: q :: rest, _, hp => by
    have ih := splitOnChar_joinChar sep (q :: rest) (by simp)
      (fun r hr => hp r (List.mem_cons_of_mem _ hr))
    have h1 : splitOnChar sep (sep :: joinChar sep (q :: rest)) = [] :: q :: rest := by
      rw [splitOnChar_cons_sep, ih]
    have h2 := splitOnChar_append sep p (hp p (by simp)) h1
    simpa [joinChar] using h2

theorem mem_joinChar (sep : Char) :
    ∀ (parts : List (List Char)) (c : Char), c ∈ joinChar sep parts →
      c = sep ∨ ∃ p ∈ parts, c ∈ p
  | [], c, h => by simp [joinChar] at h
  | [p], c, h => by
    right; exact ⟨p, by simp, by simpa [joinChar] using h⟩
  | p :: q :: rest, c, h => by
    simp only [joinChar, List.mem_append, List.mem_cons] at h
    rcases h with h | h | h
    · exact Or.inr ⟨p, by simp, h⟩
    · exact Or.inl h
    · rcases mem_joinChar sep (q :: rest) c h with h' | ⟨r, hr, hc⟩
      · exact Or.inl h'
      · exact Or.inr ⟨r, List.mem_cons_of_mem _ hr, hc⟩

theorem joinChar_cons_of_ne_nil (sep : Char) (p : List Char) {rest : List (List Char)}
    (h : rest ≠ []) : joinChar sep (p :: rest) = p ++ sep :: joinChar sep rest := by
  cases rest with
  | nil => exact absurd rfl h
  | cons q qs => rfl

theorem head?_joinChar (sep : Char) (p : List Char) (parts : List (List Char))
    (hp : p ≠ []) : (joinChar sep (p :: parts)).head? = p.head? := by
  cases parts with
  | nil => rfl
  | cons q qs =>
    rw [joinChar_cons_of_ne_nil sep p (by simp), List.head?_append]
    cases p with
    | nil => exact absurd rfl hp
    | cons x xs => rfl

theorem getLast?_joinChar (sep : Char) :
    ∀ (parts : List (List Char)) (q : List Char), q ≠ [] →
      (joinChar sep (parts ++ [q])).getLast? = q.getLast?
  | [], q, _ => by simp [joinChar]
  | p :: rest, q, hq => by
    have ih := getLast?_joinChar sep rest q hq
    have hne : joinChar sep (rest ++ [q]) ≠ [] := by
      intro h0
      rw [h0] at ih
      rcases q with _ | ⟨x, xs⟩
      · exact hq rfl
      · simp [List.getLast?] at ih
    rw [List.cons_append, joinChar_cons_of_ne_nil sep p (by simp),
      List.getLast?_append_of_ne_nil _ (by simp)]
    rw [show (sep :: joinChar sep (rest ++ [q])) = [sep] ++ joinChar sep (rest ++ [q]) from rfl,
      List.getLast?_append_of_ne_nil _ hne]
    exact ih

theorem joinChar_append_singleton (sep : Char) :
    ∀ (parts : List (List Char)) (q : List Char), parts ≠ [] →
      joinChar sep (parts ++ [q]) = joinChar sep parts ++ sep :: q
  | [], _, h => absurd rfl h
  | [p], q, _ => rfl
  | p :: r :: rest, q, _ => by
    have ih := joinChar_append_singleton sep (r :: rest) q (by simp)
    rw [List.cons_append, joinChar_cons_of_ne_nil sep p (by simp), ih,
      joinChar_cons_of_ne_nil sep p (by simp)]
    simp

theorem stripEdges_eq_self (c : Char) (l : List Char)
    (h1 : ∀ x ∈ l.head?, ¬x = c) (h2 : ∀ x ∈ l.getLast?, ¬x = c) :
    ((l.dropWhile (· = c)).reverse.dropWhile (· = c)).reverse = l := by
  have hfront : l.dropWhile (· = c) = l := by
    cases l with
    | nil => rfl
    | cons x xs => simp [List.dropWhile_cons, h1 x rfl]
  rw [hfront]
  have hback : l.reverse.dropWhile (· = c) = l.reverse := by
    cases hrev : l.reverse with
    | nil => rfl
    | cons x xs =>
      have hx : l.getLast? = some x := by
        rw [← List.head?_reverse, hrev]; rfl
      simp [List.dropWhile_cons, h2 x hx]
  rw [hback, List.reverse_reverse]

theorem mapLast_cons_of_ne_nil (f : String → String) (x : String) {l : List String}
    (h : l ≠ []) : mapLast f (x :: l) = x :: mapLast f l := by
  cases l with
  | nil => exact absurd rfl h
  | cons a as => rfl

theorem mapLast_append_singleton (f : String → String) :
    ∀ (xs : List String) (y : String), mapLast f (xs ++ [y]) = xs ++ [f y]
  | [], y => rfl
  | x :: xs, y => by
    rw [List.cons_append, mapLast_cons_of_ne_nil f x (by simp),
      mapLast_append_singleton f xs y, List.cons_append]

theorem lastIdxOf_not_mem (c : Char) (l : List Char) (h : c ∉ l) :
    lastIdxOf c l = none := by
  induction l with
  | nil => rfl
  | cons x xs ih =>
    have hx : ¬x = c := by rintro rfl; exact h (List.mem_cons_self _ _)
    have hr := ih (fun hm => h (List.mem_cons_of_mem _ hm))
    simp [lastIdxOf, hr, hx]

theorem lastIdxOf_append_cons (c : Char) (pre post : List Char) (hpost : c ∉ post) :
    lastIdxOf c (pre ++ c :: post) = some pre.length := by
  induction pre with
  | nil => simp [lastIdxOf, lastIdxOf_not_mem c post hpost]
  | cons x xs ih => simp [lastIdxOf, ih]

theorem data_ne_nil_of_ne_empty {s : String} (h : s ≠ "") : s.data ≠ [] := by
  intro h0
  exact h (by cases s; simp_all)

theorem mem_of_getLastSome {α : Type} {l : List α} {a : α}
    (h : l.getLast? = some a) : a ∈ l := by
  rcases @List.mem_getLast?_eq_getLast _ l a h with ⟨hne, rfl⟩
  exact List.getLast_mem hne

mutual
theorem visitPyNode_no_module (fp m : String) (i : Bool) (cur : String × String) :
    ∀ (n : PyNode) (e : EntityData), e ∈ (visitPyNode fp m i cur n).1 →
      ¬e.kind = "module"
  | .classDef name bases body line, e, he => by
    simp only [visitPyNode, List.mem_cons, List.mem_append] at he
    rcases he with rfl | h | h
    · simp
    · exact visitPyNodes_no_module fp m i _ bases e h
    · exact visitPyNodes_no_module fp m i _ body e h
  | .functionDef name body line, e, he => by
    simp only [visitPyNode, List.mem_cons] at he
    rcases he with rfl | h
    · split <;> simp
    · exact visitPyNodes_no_module fp m i _ body e h
  | .asyncFunctionDef name body line, e, he => by
    simp only [visitPyNode, List.mem_cons] at he
    rcases he with rfl | h
    · split <;> simp
    · exact visitPyNodes_no_module fp m i _ body e h
  | .callExpr func args line, e, he => by
    simp only [visitPyNode, List.mem_append] at he
    rcases he with h | h
    · exact visitPyNode_no_module fp m i cur func e h
    · exact visitPyNodes_no_module fp m i cur args e h
  | .importStmt names line, e, he => by simp [visitPyNode] at he
  | .importFrom module level names line, e, he => by simp [visitPyNode] at he
  | .nameExpr id, e, he => by simp [visitPyNode] at he
  | .attributeExpr value attr, e, he =>
    visitPyNode_no_module fp m i cur value e (by simpa [visitPyNode] using he)
  | .subscriptExpr value rest, e, he => by
    simp only [visitPyNode, List.mem_append] at he
    rcases he with h | h
    · exact visitPyNode_no_module fp m i cur value e h
    · exact visitPyNodes_no_module fp m i cur rest e h
  | .otherNode children, e, he =>
    visitPyNodes_no_module fp m i cur children e (by simpa [visitPyNode] using he)

theorem visitPyNodes_no_module (fp m : String) (i : Bool) (cur : String × String) :
    ∀ (ns : PyNodes) (e : EntityData), e ∈ (visitPyNodes fp m i cur ns).1 →
      ¬e.kind = "module"
  | .nil, e, he => by simp [visitPyNodes] at he
  | .cons n rest, e, he => by
    simp only [visitPyNodes, List.mem_append] at he
    rcases he with h | h
    · exact visitPyNode_no_module fp m i cur n e h
    · exact visitPyNodes_no_module fp m i cur rest e h
end

/-- The module entity is the unique `module`-kind row the Python extractor
emits, and it carries the derived module name as its qualname. -/
theorem extractPythonFromTree_module_row (fp : String) (body : PyNodes) :
    ((extractPythonFromTree fp body).1.filter (fun e => e.kind == "module"))
      = [⟨fp, moduleNameFromPath fp, moduleNameFromPath fp, "module", 1⟩] := by
  simp only [extractPythonFromTree]
  rw [List.filter_cons_of_pos (by simp)]
  have hnil : (visitPyNodes fp (moduleNameFromPath fp) (pathStem fp = "__init__")
      (moduleNameFromPath fp, "module") body).1.filter (fun e => e.kind == "module") = [] := by
    rw [List.filter_eq_nil]
    intro e he
    simpa using visitPyNodes_no_module _ _ _ _ body e he
  rw [hnil]

theorem moduleNameFromPath_spec (segs : List String) (stem ext : String)
    (hsegs : ∀ s ∈ segs, s ≠ "" ∧ s ≠ "." ∧ '/' ∉ s.data ∧ '\\' ∉ s.data)
    (hstem1 : stem ≠ "") (hstem2 : '.' ∉ stem.data)
    (hstem3 : '/' ∉ stem.data) (hstem4 : '\\' ∉ stem.data)
    (hext1 : ext ≠ "") (hext2 : '.' ∉ ext.data)
    (hext3 : '/' ∉ ext.data) (hext4 : '\\' ∉ ext.data)
    (hnd : ¬(segs = [] ∧ stem = "__init__")) :
    moduleNameFromPath (joinSlash (segs ++ [stem ++ "." ++ ext]))
      = joinDot (if stem = "__init__" then segs else segs ++ [stem]) := by
  have hlastdata : (stem ++ "." ++ ext).data = stem.data ++ '.' :: ext.data := by
    simp [String.data_append]
  have hstemne : stem.data ≠ [] := data_ne_nil_of_ne_empty hstem1
  have hextne : ext.data ≠ [] := data_ne_nil_of_ne_empty hext1
  have hlastne : (stem ++ "." ++ ext).data ≠ [] := by
    rw [hlastdata]; rcases stem.data with _ | _ <;> simp
  -- characters appearing in any part of the joined path
  have hpartchars : ∀ p ∈ (segs ++ [stem ++ "." ++ ext]).map String.data,
      ∀ ch ∈ p, ch ≠ '/' ∧ ch ≠ '\\' := by
    intro p hp ch hch
    simp only [List.map_append, List.mem_append, List.map_cons, List.mem_cons] at hp
    rcases hp with hp | hp
    · rcases List.mem_map.mp hp with ⟨s, hs, rfl⟩
      obtain ⟨_, _, h3, h4⟩ := hsegs s hs
      exact ⟨fun h => h3 (h ▸ hch), fun h => h4 (h ▸ hch)⟩
    · rcases hp with rfl | hp
      · rw [hlastdata] at hch
        simp only [List.mem_append, List.mem_cons] at hch
        rcases hch with h | h | h
        · exact ⟨fun hh => hstem3 (hh ▸ h), fun hh => hstem4 (hh ▸ h)⟩
        · subst h; exact ⟨by decide, by decide⟩
        · exact ⟨fun hh => hext3 (hh ▸ h), fun hh => hext4 (hh ▸ h)⟩
      · simp at hp
  have hjoinchars : ∀ ch ∈ joinChar '/' ((segs ++ [stem ++ "." ++ ext]).map String.data),
      ch ≠ '\\' := by
    intro ch hch
    rcases mem_joinChar '/' _ ch hch with rfl | ⟨p, hp, hcp⟩
    · decide
    · exact (hpartchars p hp ch hcp).2
  have hrepl : replaceBackslashes (joinSlash (segs ++ [stem ++ "." ++ ext]))
      = joinSlash (segs ++ [stem ++ "." ++ ext]) := by
    simp only [replaceBackslashes, joinSlash]
    congr 1
    have hid : List.map (fun ch => if ch = '\\' then '/' else ch)
        (joinChar '/' ((segs ++ [stem ++ "." ++ ext]).map String.data))
        = List.map id (joinChar '/' ((segs ++ [stem ++ "." ++ ext]).map String.data)) :=
      List.map_congr_left (fun ch hch => by simp [hjoinchars ch hch])
    rw [hid, List.map_id]
  -- the stripped, normalized path splits back into the original parts
  have hlastdatane : ∀ p ∈ (segs ++ [stem ++ "." ++ ext]).map String.data, p ≠ [] := by
    intro p hp
    simp only [List.map_append, List.mem_append, List.map_cons, List.mem_cons] at hp
    rcases hp with hp | rfl | hp
    · rcases List.mem_map.mp hp with ⟨s, hs, rfl⟩
      exact data_ne_nil_of_ne_empty (hsegs s hs).1
    · exact hlastne
    · simp at hp
  have hstrip : pyStripChar '/' (joinSlash (segs ++ [stem ++ "." ++ ext]))
      = joinSlash (segs ++ [stem ++ "." ++ ext]) := by
    simp only [pyStripChar, joinSlash]
    congr 1
    apply stripEdges_eq_self
    · intro x hx
      rcases segs with _ | ⟨s0, ss⟩
      · simp only [List.nil_append, List.map_cons, List.map_nil] at hx
        rw [head?_joinChar '/' _ _ hlastne] at hx
        have : x ∈ (stem ++ "." ++ ext).data := List.mem_of_mem_head? hx
        exact (hpartchars _ (by simp) x this).1
      · simp only [List.cons_append, List.map_cons] at hx
        rw [head?_joinChar '/' _ _ (data_ne_nil_of_ne_empty (hsegs s0 (by simp)).1)] at hx
        have : x ∈ s0.data := List.mem_of_mem_head? hx
        exact (hpartchars s0.data (by simp) x this).1
    · intro x hx
      rw [List.map_append, List.map_cons, List.map_nil,
        getLast?_joinChar '/' _ _ hlastne] at hx
      have : x ∈ (stem ++ "." ++ ext).data := mem_of_getLastSome hx
      exact (hpartchars _ (by simp) x this).1
  have hsplit : pathParts (joinSlash (segs ++ [stem ++ "." ++ ext]))
      = segs ++ [stem ++ "." ++ ext] := by
    simp only [pathParts, joinSlash]
    rw [splitOnChar_joinChar '/' _ (by simp) (by
      intro p hp hmem
      exact (hpartchars p hp '/' hmem).1 rfl)]
    have hmk : ((segs ++ [stem ++ "." ++ ext]).map String.data).map String.mk
        = segs ++ [stem ++ "." ++ ext] := by
      rw [List.map_map]
      have hid : List.map (String.mk ∘ String.data) (segs ++ [stem ++ "." ++ ext])
          = List.map id (segs ++ [stem ++ "." ++ ext]) :=
        List.map_congr_left (fun s _ => rfl)
      rw [hid, List.map_id]
    rw [hmk]
    apply List.filter_eq_self.mpr
    intro s hs
    simp only [List.mem_append, List.mem_cons] at hs
    rcases hs with hs | rfl | hs
    · obtain ⟨h1, h2, _, _⟩ := hsegs s hs
      simp [h1, h2]
    · have h1 : stem ++ "." ++ ext ≠ "" := fun h => hlastne (by rw [h])
      have h2 : stem ++ "." ++ ext ≠ "." := by
        intro h
        have hd := hlastdata ▸ congrArg String.data h
        rcases hs' : stem.data with _ | ⟨a, as⟩
        · exact hstemne hs'
        · rw [hs'] at hd
          simp at hd
      simp [h1, h2]
    · simp at hs
  have hdropsuffix : dropPathSuffix (stem ++ "." ++ ext) = stem := by
    have hidx : lastIdxOf '.' (stem ++ "." ++ ext).data = some stem.data.length := by
      rw [hlastdata]; exact lastIdxOf_append_cons '.' _ _ hext2
    have h0 : 0 < stem.data.length := List.length_pos.mpr hstemne
    have h1 : stem.data.length + 1 < (stem ++ "." ++ ext).data.length := by
      rw [hlastdata]
      simp only [List.length_append, List.length_cons]
      have := List.length_pos.mpr hextne
      omega
    simp only [dropPathSuffix, hidx, if_pos (And.intro h0 h1)]
    rw [hlastdata, List.take_left' rfl]
  simp only [moduleNameFromPath]
  rw [hrepl, hstrip, hsplit, mapLast_append_singleton, hdropsuffix]
  have hlast : (segs ++ [stem]).getLast? = some stem := by
    rw [List.getLast?_append_of_ne_nil _ (by simp)]; rfl
  have hdt : dropTrailingInit (segs ++ [stem])
      = if stem = "__init__" then segs else segs ++ [stem] := by
    rw [dropTrailingInit, hlast]
    by_cases hinit : stem = "__init__"
    · subst hinit
      simp
    · rw [if_neg (by simp [hinit]), if_neg hinit]
  rw [hdt]
  have hXne : (if stem = "__init__" then segs else segs ++ [stem]) ≠ [] := by
    by_cases hinit : stem = "__init__"
    · rw [if_pos hinit]
      exact fun h => hnd ⟨h, hinit⟩
    · rw [if_neg hinit]
      simp
  rw [if_neg hXne]

/-- Claim C6: for every accepted source file (a parsed file whose relative
path consists of clean slash-separated directory segments and a final
`stem.extension` component), Python extraction emits exactly one entity of
kind `module` for that file, and its qualname equals the file's path with
path separators converted to dots, the file extension removed, and a
trailing package-initializer segment (`__init__`) dropped. -/
theorem claim_C6 (body : PyNodes) (segs : List String) (stem ext : String)
    (hsegs : ∀ s ∈ segs, s ≠ "" ∧ s ≠ "." ∧ '/' ∉ s.data ∧ '\\' ∉ s.data)
    (hstem1 : stem ≠ "") (hstem2 : '.' ∉ stem.data)
    (hstem3 : '/' ∉ stem.data) (hstem4 : '\\' ∉ stem.data)
    (hext1 : ext ≠ "") (hext2 : '.' ∉ ext.data)
    (hext3 : '/' ∉ ext.data) (hext4 : '\\' ∉ ext.data)
    (hnd : ¬(segs = [] ∧ stem = "__init__")) :
    ((extractPythonFromTree (joinSlash (segs ++ [stem ++ "." ++ ext])) body).1.filter
        (fun e => e.kind == "module"))
      = [⟨joinSlash (segs ++ [stem ++ "." ++ ext]),
          moduleNameFromPath (joinSlash (segs ++ [stem ++ "." ++ ext])),
          moduleNameFromPath (joinSlash (segs ++ [stem ++ "." ++ ext])), "module", 1⟩] ∧
    moduleNameFromPath (joinSlash (segs ++ [stem ++ "." ++ ext]))
      = joinDot (if stem = "__init__" then segs else segs ++ [stem]) :=
  ⟨extractPythonFromTree_module_row _ body,
    moduleNameFromPath_spec segs stem ext hsegs hstem1 hstem2 hstem3 hstem4
      hext1 hext2 hext3 hext4 hnd⟩

theorem claim_C6_witness :
    (((extractPythonFromTree (joinSlash (["pkg"] ++ ["api" ++ "." ++ "py"])) PyNodes.nil).1.filter
        (fun e => e.kind == "module"))
      = [⟨joinSlash (["pkg"] ++ ["api" ++ "." ++ "py"]),
          moduleNameFromPath (joinSlash (["pkg"] ++ ["api" ++ "." ++ "py"])),
          moduleNameFromPath (joinSlash (["pkg"] ++ ["api" ++ "." ++ "py"])), "module", 1⟩] ∧
    moduleNameFromPath (joinSlash (["pkg"] ++ ["api" ++ "." ++ "py"]))
      = joinDot (if "api" = "__init__" then ["pkg"] else ["pkg"] ++ ["api"])) ∧
    moduleNameFromPath "pkg/api.py" = "pkg.api" :=
  ⟨claim_C6 PyNodes.nil ["pkg"] "api" "py" (by decide) (by decide) (by decide)
      (by decide) (by decide) (by decide) (by decide) (by decide) (by decide)
      (by decide), by decide⟩

/-! ### Characterizing `_resolve_import_module` -/

theorem joinDot_nil : joinDot [] = "" := rfl

theorem nonEmptyDotParts_joinDot (Mp : List String)
    (hMp : ∀ p ∈ Mp, p ≠ "" ∧ '.' ∉ p.data) :
    nonEmptyDotParts (joinDot Mp) = Mp := by
  rcases Mp with _ | ⟨p, rest⟩
  · rfl
  · simp only [nonEmptyDotParts, pySplitDot, joinDot]
    rw [splitOnChar_joinChar '.' _ (by simp)
      (by
        intro q hq hmem
        rcases List.mem_map.mp hq with ⟨s, hs, rfl⟩
        exact (hMp s hs).2 hmem)]
    rw [List.map_map]
    have hid : List.map (String.mk ∘ String.data) (p :: rest)
        = List.map id (p :: rest) := List.map_congr_left (fun s _ => rfl)
    rw [hid, List.map_id]
    apply List.filter_eq_self.mpr
    intro s hs
    simpa using (hMp s hs).1

theorem joinDot_eq_empty_iff (xs : List String) (hxs : ∀ p ∈ xs, p ≠ "") :
    joinDot xs = "" ↔ xs = [] := by
  constructor
  · intro h
    rcases xs with _ | ⟨p, rest⟩
    · rfl
    · exfalso
      have hpne : p.data ≠ [] := data_ne_nil_of_ne_empty (hxs p (by simp))
      have hh := head?_joinChar '.' p.data (rest.map String.data) hpne
      have hdata : (joinDot (p :: rest)).data
          = joinChar '.' ((p :: rest).map String.data) := rfl
      rw [h] at hdata
      rw [List.map_cons] at hdata
      rw [← hdata] at hh
      rcases hp : p.data with _ | ⟨a, as⟩
      · exact hpne hp
      · rw [hp] at hh
        simp at hh
  · rintro rfl; rfl

theorem joinDot_append_singleton (xs : List String) (y : String) (hxs : xs ≠ []) :
    joinDot (xs ++ [y]) = joinDot xs ++ "." ++ y := by
  have h1 : (xs ++ [y]).map String.data = xs.map String.data ++ [y.data] := by simp
  have h2 := joinChar_append_singleton '.' (xs.map String.data) y.data
    (by simpa using hxs)
  apply String.ext
  show (joinDot (xs ++ [y])).data = _
  rw [show (joinDot (xs ++ [y])).data = joinChar '.' ((xs ++ [y]).map String.data) from rfl,
    h1, h2]
  simp [String.data_append, joinDot]

theorem rsplitHead_joinDot (front : List String) (q : String)
    (hfront : front ≠ []) (hclean : ∀ p ∈ front ++ [q], '.' ∉ p.data) :
    rsplitHead '.' (joinDot (front ++ [q])) = joinDot front := by
  have hsplit : splitOnChar '.' ((joinDot (front ++ [q])).data)
      = (front ++ [q]).map String.data := by
    rw [show (joinDot (front ++ [q])).data
        = joinChar '.' ((front ++ [q]).map String.data) from rfl]
    exact splitOnChar_joinChar '.' _ (by simp)
      (by
        intro p hp hmem
        rcases List.mem_map.mp hp with ⟨s, hs, rfl⟩
        exact hclean s hs hmem)
  rw [rsplitHead, hsplit]
  rcases hf : front with _ | ⟨p0, frest⟩
  · exact absurd hf hfront
  · simp only [List.map_append, List.map_cons, List.reverse_append]
    have hform : (q.data :: ([] : List (List Char)))
        ++ (List.map String.data (p0 :: frest)).reverse
        = q.data :: (List.map String.data (p0 :: frest)).reverse := rfl
    simp only [List.map_cons, List.reverse_cons, List.map_nil, List.reverse_nil,
      List.nil_append, List.cons_append]
    rcases hr : (List.map String.data frest).reverse ++ [p0.data] with _ | ⟨x, xs⟩
    · simp at hr
    · rw [show (q.data :: (x :: xs)) = q.data :: x :: xs from rfl]
      have hxr : (x :: xs).reverse = List.map String.data (p0 :: frest) := by
        rw [← hr]
        simp
      show String.mk (joinChar '.' (x :: xs).reverse) = joinDot (p0 :: frest)
      rw [hxr]
      rfl

theorem containsChar_joinDot (Mp : List String)
    (hMp : ∀ p ∈ Mp, '.' ∉ p.data) :
    containsChar '.' (joinDot Mp) = true ↔ 2 ≤ Mp.length := by
  constructor
  · intro h
    by_contra hlen
    have : Mp.length ≤ 1 := by omega
    rcases Mp with _ | ⟨p, _ | ⟨r, rest⟩⟩
    · simp [containsChar, joinDot, joinChar] at h
    · have : containsChar '.' (joinDot [p]) = true := h
      rw [show joinDot [p] = p from rfl] at this
      have hmem : '.' ∈ p.data := List.elem_iff.mp this
      exact hMp p (by simp) hmem
    · simp at this
  · intro hlen
    rcases Mp with _ | ⟨p, _ | ⟨r, rest⟩⟩
    · simp at hlen
    · simp at hlen
    · show List.contains _ '.' = true
      apply List.elem_iff.mpr
      show '.' ∈ joinChar '.' ((p :: r :: rest).map String.data)
      simp only [List.map_cons]
      rw [joinChar_cons_of_ne_nil '.' _ (by simp)]
      simp

theorem resolveImportModule_parts1 (parts0 : List String) (L : Nat) (hL : 1 ≤ L) :
    (if parts0.length ≤ L - 1 then []
     else if L - 1 ≠ 0 then parts0.take (parts0.length - (L - 1))
     else parts0) = parts0.take (parts0.length - (L - 1)) := by
  by_cases h1 : parts0.length ≤ L - 1
  · rw [if_pos h1, show parts0.length - (L - 1) = 0 by omega, List.take_zero]
  · rw [if_neg h1]
    by_cases h2 : L - 1 = 0
    · rw [if_neg (by simp [h2]), h2, Nat.sub_zero, List.take_length]
    · rw [if_pos h2]

/-- `_resolve_import_module` for a relative import (`level ≥ 1`) climbs the
package hierarchy from the importing module by the level count — one less
when the importing file is a package initializer — and then appends the
stated module path. -/
theorem resolveImportModule_spec (Mp : List String)
    (hMp : ∀ p ∈ Mp, p ≠ "" ∧ '.' ∉ p.data)
    (mod : String) (L : Nat) (hL : 1 ≤ L) (init : Bool) :
    resolveImportModule (joinDot Mp) mod L init
      = joinDot (Mp.take (Mp.length - (if init then L - 1 else L))
          ++ nonEmptyDotParts (pyStrip mod)) := by
  have hL0 : ¬(L = 0) := by omega
  have hparts0 : nonEmptyDotParts
      (if init then joinDot Mp
       else if containsChar '.' (joinDot Mp) then rsplitHead '.' (joinDot Mp) else "")
      = Mp.take (Mp.length - (if init then 0 else 1)) := by
    cases init with
    | true =>
      simp only [reduceIte]
      rw [nonEmptyDotParts_joinDot Mp hMp]
      simp
    | false =>
      simp only [Bool.false_eq_true, reduceIte]
      by_cases hlen : 2 ≤ Mp.length
      · have hne : Mp ≠ [] := by intro h; rw [h] at hlen; simp at hlen
        obtain ⟨front, q, rfl⟩ := (List.eq_nil_or_concat Mp).resolve_left hne
        simp only [List.concat_eq_append] at hMp hlen hne ⊢
        have hfront : front ≠ [] := by
          intro h; subst h; simp at hlen
        have hcont : containsChar '.' (joinDot (front ++ [q])) = true :=
          (containsChar_joinDot _ (fun p hp => (hMp p hp).2)).mpr hlen
        have hrs := rsplitHead_joinDot front q hfront (fun p hp => (hMp p hp).2)
        rw [hcont]
        simp only [reduceIte]
        rw [hrs,
          nonEmptyDotParts_joinDot front (fun p hp => hMp p (List.mem_append_left _ hp))]
        have hlen1 : (front ++ [q]).length - 1 = front.length := by simp
        rw [hlen1, List.take_left]
      · have hcont : ¬containsChar '.' (joinDot Mp) = true := by
          rw [containsChar_joinDot Mp (fun p hp => (hMp p hp).2)]
          omega
        rw [if_neg hcont]
        have : Mp.take (Mp.length - 1) = [] := by
          rcases Mp with _ | ⟨a, _ | ⟨b, t⟩⟩ <;> simp_all <;> omega
        rw [this]
        rfl
  simp only [resolveImportModule, if_neg hL0, hparts0]
  rw [resolveImportModule_parts1 _ L hL]
  have htake : (Mp.take (Mp.length - (if init then 0 else 1))).take
        ((Mp.take (Mp.length - (if init then 0 else 1))).length - (L - 1))
      = Mp.take (Mp.length - (if init then L - 1 else L)) := by
    rw [List.take_take, List.length_take]
    congr 1
    cases init <;> simp only [Bool.false_eq_true, reduceIte] <;> omega
  rw [htake]
  by_cases hmod : pyStrip mod ≠ ""
  · rw [if_pos hmod]
  · rw [if_neg hmod]
    push_neg at hmod
    rw [hmod]
    show joinDot _ = joinDot (_ ++ nonEmptyDotParts "")
    rw [show nonEmptyDotParts "" = [] from rfl, List.append_nil]

/-! ### `pyStrip` idempotence -/

theorem dropWhile_head?_not (p : Char → Bool) (l : List Char) :
    ∀ c, (l.dropWhile p).head? = some c → ¬p c = true := by
  induction l with
  | nil => intro c hc; cases hc
  | cons x xs ih =>
    intro c hc
    by_cases hx : p x
    · rw [List.dropWhile_cons, if_pos hx] at hc
      exact ih c hc
    · rw [List.dropWhile_cons, if_neg hx] at hc
      cases hc
      exact hx

theorem getLast?_cons_of_ne_nil {α : Type} (x : α) {l : List α} (h : l ≠ []) :
    (x :: l).getLast? = l.getLast? := by
  rw [show x :: l = [x] ++ l from rfl, List.getLast?_append_of_ne_nil _ h]

theorem dropWhile_getLast?_eq (p : Char → Bool) (l : List Char)
    (h : l.dropWhile p ≠ []) : (l.dropWhile p).getLast? = l.getLast? := by
  induction l with
  | nil => simp at h
  | cons x xs ih =>
    by_cases hx : p x
    · rw [List.dropWhile_cons, if_pos hx] at h ⊢
      have hxs : xs ≠ [] := by
        intro h0; rw [h0] at h; simp at h
      rw [ih h, getLast?_cons_of_ne_nil x hxs]
    · rw [List.dropWhile_cons, if_neg hx]

theorem stripWhile_eq_self (p : Char → Bool) (l : List Char)
    (h1 : ∀ x ∈ l.head?, ¬p x = true) (h2 : ∀ x ∈ l.getLast?, ¬p x = true) :
    ((l.dropWhile p).reverse.dropWhile p).reverse = l := by
  have hfront : l.dropWhile p = l := by
    cases l with
    | nil => rfl
    | cons x xs => simp [List.dropWhile_cons, h1 x rfl]
  rw [hfront]
  have hback : l.reverse.dropWhile p = l.reverse := by
    cases hrev : l.reverse with
    | nil => rfl
    | cons x xs =>
      have hx : l.getLast? = some x := by
        rw [← List.head?_reverse, hrev]; rfl
      simp [List.dropWhile_cons, h2 x hx]
  rw [hback, List.reverse_reverse]

theorem pyStripList_idem (l : List Char) :
    pyStripList (pyStripList l) = pyStripList l := by
  by_cases hX : pyStripList l = []
  · rw [hX]; rfl
  · have hXrev : (l.dropWhile pyWs).reverse.dropWhile pyWs ≠ [] := by
      intro h0
      exact hX (by rw [pyStripList, h0]; rfl)
    apply stripWhile_eq_self
    · intro x hx
      rw [pyStripList, List.head?_reverse] at hx
      rw [dropWhile_getLast?_eq _ _ hXrev, List.getLast?_reverse] at hx
      exact dropWhile_head?_not pyWs l x hx
    · intro x hx
      rw [pyStripList, List.getLast?_reverse] at hx
      exact dropWhile_head?_not pyWs _ x hx

theorem pyStrip_idem (s : String) : pyStrip (pyStrip s) = pyStrip s :=
  congrArg String.mk (pyStripList_idem s.data)

/-! ### `visit_ImportFrom` emission -/

theorem joinDot_singleton (y : String) : joinDot [y] = y := rfl

theorem imported_eq_joinDot (parts : List String) (hparts : ∀ p ∈ parts, p ≠ "")
    (leaf : String) :
    (if joinDot parts ≠ "" then joinDot parts ++ "." ++ leaf else leaf)
      = joinDot (parts ++ [leaf]) := by
  by_cases hp : parts = []
  · subst hp
    rw [if_neg (by simp [joinDot_nil]), List.nil_append, joinDot_singleton]
  · rw [if_pos (by
      intro h
      exact hp ((joinDot_eq_empty_iff parts hparts).mp h))]
    exact (joinDot_append_singleton parts leaf hp).symm

theorem importFromAliasRelations_filter (fp src : String) (hsrc : ¬src = "")
    (parts : List String) (hparts : ∀ p ∈ parts, p ≠ "")
    (line : Nat) (al : String × Option String) :
    (importFromAliasRelations fp src (joinDot parts) line al).filter
        (fun r => r.relation == "imports")
      = if pyStrip al.1 = "" ∨ pyStrip al.1 = "*" then []
        else [⟨fp, src, joinDot (parts ++ [pyStrip al.1]), "imports", line⟩] := by
  obtain ⟨a1, a2⟩ := al
  by_cases hleaf : pyStrip a1 = "" ∨ pyStrip a1 = "*"
  · rw [if_pos hleaf]
    simp only [importFromAliasRelations, if_pos hleaf]
    rfl
  · rw [if_neg hleaf]
    push_neg at hleaf
    have hleafne : pyStrip a1 ≠ "" := hleaf.1
    have hdst := imported_eq_joinDot parts hparts (pyStrip a1)
    have hdstne : joinDot (parts ++ [pyStrip a1]) ≠ "" := by
      intro h
      have := (joinDot_eq_empty_iff (parts ++ [pyStrip a1]) (by
        intro p hp
        rcases List.mem_append.mp hp with h' | h'
        · exact hparts p h'
        · simp at h'; subst h'; exact hleafne)).mp h
      simp at this
    simp only [importFromAliasRelations, if_neg (not_or.mpr hleaf), hdst]
    cases a2 with
    | none => simp [addRelationRows, hsrc, hdstne]
    | some asn => simp [addRelationRows, hsrc, hdstne]

theorem mem_nonEmptyDotParts_ne (s p : String) (hp : p ∈ nonEmptyDotParts s) :
    p ≠ "" := by
  have := List.of_mem_filter hp
  simpa using this

theorem importFromRelations_filterMap (fp src : String) (hsrc : ¬src = "")
    (parts : List String) (hparts : ∀ p ∈ parts, p ≠ "") (line : Nat) :
    ∀ (names : List (String × Option String)),
      ((names.map (importFromAliasRelations fp src (joinDot parts) line)).flatten).filter
          (fun r => r.relation == "imports")
        = (names.filter (fun al => !(pyStrip al.1 == "" || pyStrip al.1 == "*"))).map
            (fun al => ⟨fp, src, joinDot (parts ++ [pyStrip al.1]), "imports", line⟩)
  | [] => rfl
  | al :: rest => by
    simp only [List.map_cons, List.flatten_cons, List.filter_append, List.filter_cons]
    rw [importFromAliasRelations_filter fp src hsrc parts hparts line al,
      importFromRelations_filterMap fp src hsrc parts hparts line rest]
    by_cases h : pyStrip al.1 = "" ∨ pyStrip al.1 = "*"
    · rw [if_pos h]
      have hb : (!(pyStrip al.1 == "" || pyStrip al.1 == "*")) = false := by
        rcases h with h | h <;> simp [h]
      rw [hb]
      simp
    · rw [if_neg h]
      push_neg at h
      have hb : (!(pyStrip al.1 == "" || pyStrip al.1 == "*")) = true := by
        simp [h.1, h.2]
      rw [hb]
      simp

/-- Claim C7: for every from-import statement with relative level `L ≥ 1`
in a module `M`, the emitted `imports` relations target exactly the module
path obtained by climbing the package hierarchy from `M` by the level
count (one less when the current file is a package initializer) and then
appending the stated module path and the imported symbol name. -/
theorem claim_C7 (Mp : List String) (hMp : ∀ p ∈ Mp, p ≠ "" ∧ '.' ∉ p.data)
    (mod : String) (L : Nat) (hL : 1 ≤ L) (init : Bool)
    (fp src : String) (hsrc : ¬src = "")
    (names : List (String × Option String)) (line : Nat) :
    resolveImportModule (joinDot Mp) (pyStrip mod) L init
      = joinDot (Mp.take (Mp.length - (if init then L - 1 else L))
          ++ nonEmptyDotParts (pyStrip mod)) ∧
    (importFromRelations fp src (joinDot Mp) init (some mod) L names line).filter
        (fun r => r.relation == "imports")
      = (names.filter (fun al => !(pyStrip al.1 == "" || pyStrip al.1 == "*"))).map
          (fun al =>
            ⟨fp, src,
              joinDot ((Mp.take (Mp.length - (if init then L - 1 else L))
                ++ nonEmptyDotParts (pyStrip mod)) ++ [pyStrip al.1]),
              "imports", line⟩) := by
  have h1 : resolveImportModule (joinDot Mp) (pyStrip mod) L init
      = joinDot (Mp.take (Mp.length - (if init then L - 1 else L))
          ++ nonEmptyDotParts (pyStrip mod)) := by
    rw [resolveImportModule_spec Mp hMp (pyStrip mod) L hL init, pyStrip_idem]
  refine ⟨h1, ?_⟩
  have hparts : ∀ p ∈ Mp.take (Mp.length - (if init then L - 1 else L))
      ++ nonEmptyDotParts (pyStrip mod), p ≠ "" := by
    intro p hp
    rcases List.mem_append.mp hp with h' | h'
    · exact (hMp p (List.take_subset _ _ h')).1
    · exact mem_nonEmptyDotParts_ne _ p h'
  show ((names.map (importFromAliasRelations fp src
      (resolveImportModule (joinDot Mp) (pyStrip ((some mod).getD "")) L init)
      line)).flatten).filter (fun r => r.relation == "imports") = _
  rw [show (some mod).getD "" = mod from rfl, h1]
  exact importFromRelations_filterMap fp src hsrc _ hparts line names

theorem claim_C7_witness :
    (resolveImportModule (joinDot ["pkg", "sub", "mod"]) (pyStrip "x") 2 false
      = joinDot ((["pkg", "sub", "mod"].take (["pkg", "sub", "mod"].length
          - (if false then 2 - 1 else 2)))
          ++ nonEmptyDotParts (pyStrip "x")) ∧
    (importFromRelations "f.py" "pkg.sub.mod" (joinDot ["pkg", "sub", "mod"]) false
        (some "x") 2 ([("a", none), ("*", none)] : List (String × Option String)) 3).filter
        (fun r => r.relation == "imports")
      = (([("a", none), ("*", none)] : List (String × Option String)).filter
          (fun al => !(pyStrip al.1 == "" || pyStrip al.1 == "*"))).map
          (fun al =>
            ⟨"f.py", "pkg.sub.mod",
              joinDot (((["pkg", "sub", "mod"].take (["pkg", "sub", "mod"].length
                - (if false then 2 - 1 else 2)))
                ++ nonEmptyDotParts (pyStrip "x")) ++ [pyStrip al.1]),
              "imports", 3⟩)) ∧
    resolveImportModule "pkg.sub.mod" "x" 2 false = "pkg.x" :=
  ⟨claim_C7 ["pkg", "sub", "mod"] (by decide) "x" 2 (by decide) false
      "f.py" "pkg.sub.mod" (by decide)
      ([("a", none), ("*", none)] : List (String × Option String)) 3, by decide⟩

/-! ### Association-list dictionary lemmas -/

theorem dictGet_dictSet_self {κ α : Type} [DecidableEq κ] (m : List (κ × α)) (k : κ)
    (v : α) : dictGet (dictSet m k v) k = some v := by
  induction m with
  | nil => simp [dictGet, dictSet]
  | cons p rest ih =>
    obtain ⟨k', v'⟩ := p
    by_cases h : k = k'
    · subst h; simp [dictGet, dictSet]
    · simp [dictGet, dictSet, h, ih]

theorem dictGet_dictSet_ne {κ α : Type} [DecidableEq κ] (m : List (κ × α)) (k j : κ)
    (v : α) (hne : j ≠ k) : dictGet (dictSet m k v) j = dictGet m j := by
  induction m with
  | nil => simp [dictGet, dictSet, hne]
  | cons p rest ih =>
    obtain ⟨k', v'⟩ := p
    by_cases h : k = k'
    · subst h
      simp [dictGet, dictSet, hne]
    · by_cases h2 : j = k'
      · subst h2; simp [dictGet, dictSet, h]
      · simp [dictGet, dictSet, h, h2, ih]

theorem dictGet_mem {κ α : Type} [DecidableEq κ] (m : List (κ × α)) (k : κ) (v : α)
    (h : dictGet m k = some v) : (k, v) ∈ m := by
  induction m with
  | nil => cases h
  | cons p rest ih =>
    obtain ⟨k', v'⟩ := p
    by_cases hk : k = k'
    · subst hk
      simp [dictGet] at h
      subst h
      exact List.mem_cons_self _ _
    · simp [dictGet, hk] at h
      exact List.mem_cons_of_mem _ (ih h)

def dictKeysNodup {κ α : Type} (m : List (κ × α)) : Prop := (m.map Prod.fst).Nodup

theorem dictKeysNodup_nil {κ α : Type} : dictKeysNodup ([] : List (κ × α)) := by
  simp [dictKeysNodup]

theorem mem_dictGet {κ α : Type} [DecidableEq κ] (m : List (κ × α)) (k : κ) (v : α)
    (hnd : dictKeysNodup m) (h : (k, v) ∈ m) : dictGet m k = some v := by
  induction m with
  | nil => cases h
  | cons p rest ih =>
    obtain ⟨k', v'⟩ := p
    simp only [dictKeysNodup, List.map_cons, List.nodup_cons] at hnd
    rcases List.mem_cons.mp h with heq | hmem
    · cases heq
      simp [dictGet]
    · have hk : k ≠ k' := by
        rintro rfl
        exact hnd.1 (List.mem_map.mpr ⟨(k, v), hmem, rfl⟩)
      simp [dictGet, hk]
      exact ih hnd.2 hmem

theorem dictSet_key_cases {κ α : Type} [DecidableEq κ] (m : List (κ × α)) (k : κ)
    (v : α) : ∀ q ∈ dictSet m k v, q.1 = k ∨ q.1 ∈ m.map Prod.fst := by
  induction m with
  | nil =>
    intro q hq
    simp [dictSet] at hq
    subst hq
    exact Or.inl rfl
  | cons p rest ih =>
    obtain ⟨k', v'⟩ := p
    intro q hq
    by_cases h : k = k'
    · subst h
      simp only [dictSet, if_pos rfl] at hq
      rcases List.mem_cons.mp hq with rfl | hmem
      · exact Or.inl rfl
      · exact Or.inr (by
          rw [List.map_cons]
          exact List.mem_cons_of_mem _ (List.mem_map.mpr ⟨q, hmem, rfl⟩))
    · simp only [dictSet, if_neg h] at hq
      rcases List.mem_cons.mp hq with rfl | hmem
      · exact Or.inr (by simp)
      · rcases ih q hmem with h' | h'
        · exact Or.inl h'
        · exact Or.inr (by
            rw [List.map_cons]
            exact List.mem_cons_of_mem _ h')

theorem dictSet_keysNodup {κ α : Type} [DecidableEq κ] (m : List (κ × α)) (k : κ)
    (v : α) (hnd : dictKeysNodup m) : dictKeysNodup (dictSet m k v) := by
  induction m with
  | nil => simp [dictSet, dictKeysNodup]
  | cons p rest ih =>
    obtain ⟨k', v'⟩ := p
    simp only [dictKeysNodup, List.map_cons, List.nodup_cons] at hnd
    by_cases h : k = k'
    · subst h
      simpa [dictSet, dictKeysNodup] using hnd
    · have hrest := ih hnd.2
      simp only [dictSet, if_neg h, dictKeysNodup, List.map_cons, List.nodup_cons]
      refine ⟨?_, hrest⟩
      intro hmem
      rcases List.mem_map.mp hmem with ⟨q, hq, hfst⟩
      rcases dictSet_key_cases rest k v q hq with h' | h'
      · exact h (by rw [← hfst, h'])
      · exact hnd.1 (hfst ▸ h')

/-! ### Candidate-map facts for the direct-qualname-match analysis -/

theorem addCandidate_get_ne (m : List (Nat × ℚ)) (id j : Nat) (conf : ℚ)
    (hne : j ≠ id) : dictGet (addCandidate m id conf) j = dictGet m j := by
  rw [addCandidate]
  split
  · exact dictGet_dictSet_ne m id j conf hne
  · rfl

theorem addCandidate_get_some (m : List (Nat × ℚ)) (id : Nat) (conf c : ℚ)
    (h : dictGet m id = some c) :
    dictGet (addCandidate m id conf) id = some (max c conf) := by
  rw [addCandidate, h]
  by_cases hlt : c < conf
  · simp only [Option.getD_some, if_pos hlt, dictGet_dictSet_self]
    rw [max_eq_right (le_of_lt hlt)]
  · simp only [Option.getD_some, if_neg hlt, h]
    rw [max_eq_left (le_of_not_lt hlt)]

theorem addCandidate_get_cases (m : List (Nat × ℚ)) (id j : Nat) (conf c : ℚ)
    (h : dictGet (addCandidate m id conf) j = some c) :
    dictGet m j = some c ∨ (j = id ∧ c = conf) := by
  rw [addCandidate] at h
  split at h
  · by_cases hj : j = id
    · subst hj
      rw [dictGet_dictSet_self] at h
      exact Or.inr ⟨rfl, (Option.some_injective _ h).symm⟩
    · rw [dictGet_dictSet_ne _ _ _ _ hj] at h
      exact Or.inl h
  · exact Or.inl h

theorem addCandidate_keysNodup (m : List (Nat × ℚ)) (id : Nat) (conf : ℚ)
    (hnd : dictKeysNodup m) : dictKeysNodup (addCandidate m id conf) := by
  rw [addCandidate]
  split
  · exact dictSet_keysNodup m id conf hnd
  · exact hnd

/-- Invariant of the candidate map once a direct qualname match has been
recorded: the matched entity holds score exactly `1.0`, keys are unique,
and every other entity's score is at most `0.98`. -/
def directOk (i : Nat) (m : List (Nat × ℚ)) : Prop :=
  dictKeysNodup m ∧ dictGet m i = some 1 ∧
    ∀ j c, j ≠ i → dictGet m j = some c → c ≤ 0.98

theorem directOk_addCandidate (i : Nat) (m : List (Nat × ℚ)) (id : Nat) (conf : ℚ)
    (hm : directOk i m) (hconf : conf ≤ 0.98) :
    directOk i (addCandidate m id conf) := by
  obtain ⟨hnd, hi, hb⟩ := hm
  refine ⟨addCandidate_keysNodup m id conf hnd, ?_, ?_⟩
  · by_cases hid : id = i
    · subst hid
      rw [addCandidate_get_some m id conf 1 hi]
      rw [max_eq_left (by linarith)]
    · rw [addCandidate_get_ne m id i conf (fun h => hid h.symm)]
      exact hi
  · intro j c hj hc
    rcases addCandidate_get_cases m id j conf c hc with h | ⟨_, rfl⟩
    · exact hb j c hj h
    · exact hconf

theorem directOk_addCandidates (i : Nat) (m : List (Nat × ℚ)) (ids : List Nat)
    (conf : ℚ) (hm : directOk i m) (hconf : conf ≤ 0.98) :
    directOk i (addCandidates m ids conf) := by
  induction ids generalizing m with
  | nil => exact hm
  | cons id rest ih =>
    exact ih (addCandidate m id conf) (directOk_addCandidate i m id conf hm hconf)

theorem directOk_foldl {β : Type} (i : Nat) (f : List (Nat × ℚ) → β → List (Nat × ℚ))
    (l : List β) (m : List (Nat × ℚ)) (hm : directOk i m)
    (hf : ∀ acc x, directOk i acc → directOk i (f acc x)) :
    directOk i (l.foldl f m) := by
  induction l generalizing m with
  | nil => exact hm
  | cons x rest ih => exact ih (f m x) (hf m x hm)

theorem directOk_stage (i : Nat) (b : Prop) [Decidable b] (m : List (Nat × ℚ))
    (ids : List Nat) (conf : ℚ) (hm : directOk i m) (hconf : conf ≤ 0.98) :
    directOk i (if b then addCandidates m ids conf else m) := by
  split
  · exact directOk_addCandidates i m ids conf hm hconf
  · exact hm

theorem baseConfidence_le (d : Nat) :
    max (0.84 : ℚ) (0.95 - 0.02 * (d : ℚ)) ≤ 0.98 := by
  apply max_le
  · norm_num
  · have h : (0 : ℚ) ≤ 0.02 * (d : ℚ) := by positivity
    linarith

theorem directOk_selfClsStage (i : Nat) (cands : List (Nat × ℚ))
    (dst srcClassQual : String) (idx : ResolveIndex) (hm : directOk i cands) :
    directOk i (selfClsStage cands dst srcClassQual idx) := by
  rw [selfClsStage]
  split
  · exact directOk_stage i _ cands _ _ hm (by norm_num)
  · exact hm

theorem directOk_bareDottedStage (i : Nat) (cands : List (Nat × ℚ))
    (dst srcClassQual moduleName : String) (idx : ResolveIndex)
    (hm : directOk i cands) :
    directOk i (bareDottedStage cands dst srcClassQual moduleName idx) := by
  rw [bareDottedStage]
  split
  · apply directOk_stage
    · split
      · exact directOk_stage i _ cands _ _ hm (by norm_num)
      · exact hm
    · norm_num
  · exact directOk_addCandidates i cands _ _ hm (by norm_num)

theorem directOk_scopeStageStep (i : Nat) (dst : String) (idx : ResolveIndex)
    (importsByScope : ImportsByScope) (cands : List (Nat × ℚ)) (sd : Nat × String)
    (hm : directOk i cands) :
    directOk i (scopeStageStep dst idx importsByScope cands sd) := by
  rw [scopeStageStep]
  split
  · exact hm
  · split
    · apply directOk_foldl _ _ _ _ hm
      intro acc imported hacc
      exact directOk_addCandidates i acc _ _ hacc (baseConfidence_le sd.1)
    · apply directOk_foldl _ _ _ _ hm
      intro acc imported hacc
      apply directOk_addCandidates i acc _ _ hacc
      have := baseConfidence_le sd.1
      apply max_le
      · norm_num
      · linarith

theorem directOk_scopeStage (i : Nat) (cands : List (Nat × ℚ))
    (dst srcQualname moduleName : String) (idx : ResolveIndex)
    (importsByScope : ImportsByScope) (hm : directOk i cands) :
    directOk i (scopeStage cands dst srcQualname moduleName idx importsByScope) := by
  rw [scopeStage]
  apply directOk_foldl _ _ _ _ hm
  intro acc sd hacc
  exact directOk_scopeStageStep i dst idx importsByScope acc sd hacc

theorem directOk_suffixStage (i : Nat) (cands : List (Nat × ℚ)) (dst : String)
    (idx : ResolveIndex) (hm : directOk i cands) :
    directOk i (suffixStage cands dst idx) := by
  rw [suffixStage]
  exact directOk_stage i _ cands _ _ hm (by norm_num)

theorem directOk_nameStage (i : Nat) (cands : List (Nat × ℚ)) (dst : String)
    (idx : ResolveIndex) (hm : directOk i cands) :
    directOk i (nameStage cands dst idx) := by
  rw [nameStage]
  exact directOk_stage i _ cands _ _ hm (by norm_num)

theorem collectCandidates_directOk (relationKind filePath srcQualname dst : String)
    (srcEntityId : Option Nat) (idx : ResolveIndex) (importsByScope : ImportsByScope)
    (i : Nat) (hdirect : dictGet idx.entityIdByQualname dst = some i) :
    directOk i (collectCandidates relationKind filePath srcQualname dst srcEntityId
      idx importsByScope) := by
  have h0 : directOk i (addCandidates [] [i] (1.0 : ℚ)) := by
    have hrepr : addCandidates [] [i] (1.0 : ℚ) = [(i, 1)] := by
      simp [addCandidates, addCandidate, dictGet, dictSet]
      norm_num
    rw [hrepr]
    refine ⟨by simp [dictKeysNodup], by simp [dictGet], ?_⟩
    intro j c hj hc
    simp [dictGet, hj] at hc
  simp only [collectCandidates, hdirect]
  by_cases hkind : relationKind = "defines"
  · rw [if_pos hkind]
    exact h0
  · rw [if_neg hkind]
    apply directOk_nameStage
    apply directOk_suffixStage
    apply directOk_scopeStage
    apply directOk_bareDottedStage
    apply directOk_selfClsStage
    exact h0

theorem directOk_pick (i : Nat) (m : List (Nat × ℚ)) (hm : directOk i m) :
    (pickBestCandidate m = (some i, 1) ∨ pickBestCandidate m = (none, 0)) ∧
    (pickBestCandidate m = (some i, 1) ↔
      ∀ j c, j ≠ i → dictGet m j = some c → c ≤ 0.85) := by
  obtain ⟨hnd, hi, hb⟩ := hm
  rcases m with _ | ⟨x, _ | ⟨y, l⟩⟩
  · cases hi
  · -- single candidate: it must be the direct match itself
    have hx : x.1 = i ∧ x.2 = 1 := by
      obtain ⟨x1, x2⟩ := x
      by_cases h : i = x1
      · subst h
        simp [dictGet] at hi
        exact ⟨rfl, hi⟩
      · simp [dictGet, h] at hi
    have hpick : pickBestCandidate [x] = (some i, 1) := by
      obtain ⟨x1, x2⟩ := x
      simp only [pickBestCandidate]
      have h1 : x1 = i := hx.1
      have h2 : x2 = 1 := hx.2
      rw [h1, h2]
    refine ⟨Or.inl hpick, ⟨fun _ j c hj hc => ?_, fun _ => hpick⟩⟩
    exfalso
    obtain ⟨x1, x2⟩ := x
    have := hx.1
    simp only at this
    subst this
    simp [dictGet, hj] at hc
  · -- at least two candidates
    have hperm := rankCandidates_perm (x :: y :: l)
    have hsort := rankCandidates_sorted (x :: y :: l)
    have hlen : (rankCandidates (x :: y :: l)).length = (x :: y :: l).length :=
      hperm.length_eq
    rcases hr : rankCandidates (x :: y :: l) with _ | ⟨t, _ | ⟨s, r⟩⟩ <;>
      rw [hr] at hlen <;> simp at hlen
    rw [hr] at hperm hsort
    have hmem : ∀ p, p ∈ (x :: y :: l) ↔ p ∈ t :: s :: r := fun p => (hperm.mem_iff).symm
    have htmax : ∀ p ∈ t :: s :: r, p.2 ≤ t.2 := by
      intro p hp
      rcases List.mem_cons.mp hp with rfl | hp'
      · exact le_refl _
      · exact (List.sorted_cons.mp hsort).1 p hp'
    have hsmax : ∀ p ∈ s :: r, p.2 ≤ s.2 := by
      intro p hp
      rcases List.mem_cons.mp hp with rfl | hp'
      · exact le_refl _
      · exact (List.sorted_cons.mp (List.sorted_cons.mp hsort).2).1 p hp'
    have hnd' : ((t :: s :: r).map Prod.fst).Nodup := by
      have hp : List.Perm ((x :: y :: l).map Prod.fst) ((t :: s :: r).map Prod.fst) :=
        (hperm.symm).map Prod.fst
      exact hp.nodup_iff.mp hnd
    have hts : t.1 ≠ s.1 := by
      simp only [List.map_cons, List.nodup_cons, List.mem_cons, List.mem_map] at hnd'
      intro h; exact hnd'.1 (Or.inl h)
    have himem : (i, (1 : ℚ)) ∈ x :: y :: l := dictGet_mem _ _ _ hi
    have h1t : (1 : ℚ) ≤ t.2 := htmax (i, 1) ((hmem _).mp himem)
    have ht : t.1 = i ∧ t.2 = 1 := by
      have htm : t ∈ x :: y :: l := (hmem t).mpr (by simp)
      have htget : dictGet (x :: y :: l) t.1 = some t.2 := by
        have := mem_dictGet (x :: y :: l) t.1 t.2 hnd (by
          have : (t.1, t.2) = t := rfl
          rw [this]; exact htm)
        exact this
      by_cases hti : t.1 = i
      · subst hti
        rw [hi] at htget
        exact ⟨rfl, (Option.some_injective _ htget.symm)⟩
      · have := hb t.1 t.2 hti htget
        linarith
    have hsne : s.1 ≠ i := fun h => hts (by rw [ht.1, h])
    have hsb : s.2 ≤ 0.98 := by
      have hsm : s ∈ x :: y :: l := (hmem s).mpr (by simp)
      have hsget : dictGet (x :: y :: l) s.1 = some s.2 :=
        mem_dictGet (x :: y :: l) s.1 s.2 hnd (by
          have : (s.1, s.2) = s := rfl
          rw [this]; exact hsm)
      exact hb s.1 s.2 hsne hsget
    have hpick : pickBestCandidate (x :: y :: l) =
        if (0.15 : ℚ) ≤ t.2 - s.2 then (some t.1, t.2) else (none, 0) := by
      simp only [pickBestCandidate, hr]
      rfl
    constructor
    · by_cases hgap : (0.15 : ℚ) ≤ t.2 - s.2
      · exact Or.inl (by rw [hpick, if_pos hgap, ht.1, ht.2])
      · exact Or.inr (by rw [hpick, if_neg hgap])
    · constructor
      · intro hres j c hj hc
        have hjm : (j, c) ∈ x :: y :: l := dictGet_mem _ _ _ hc
        have hjr : (j, c) ∈ t :: s :: r := (hmem _).mp hjm
        have hjne : (j, c) ≠ t := by
          intro h
          exact hj (by rw [← ht.1, ← h])
        have hjs : (j, c) ∈ s :: r := by
          rcases List.mem_cons.mp hjr with h | h
          · exact absurd h hjne
          · exact h
        have hcs : c ≤ s.2 := hsmax (j, c) hjs
        rw [hpick] at hres
        by_cases hgap : (0.15 : ℚ) ≤ t.2 - s.2
        · rw [ht.2] at hgap
          linarith
        · rw [if_neg hgap] at hres
          cases hres
      · intro hsmall
        have hss : s.2 ≤ 0.85 := by
          apply hsmall s.1 s.2 hsne
          exact mem_dictGet (x :: y :: l) s.1 s.2 hnd (by
            have : (s.1, s.2) = s := rfl
            rw [this]; exact (hmem s).mpr (by simp))
        rw [hpick, if_pos (by rw [ht.2]; linarith), ht.1, ht.2]

/-- Claim C2 as stated is false: a relation whose raw target exactly
matches an entity's qualname can still end unresolved, because other
resolution steps may add a second candidate within `0.15` of the direct
match's `1.0`.  Here the target `f` matches module entity `1` (qualname
`f`) directly, but function `g.f` (entity `2`, the unique entity named `f`
in the enclosing module `g`) also becomes a candidate at `0.93`, and
`1.0 - 0.93 < 0.15` leaves the relation unresolved with confidence `0`. -/
theorem claim_C2_counterexample :
    dictGet (buildEntityIndex
        [⟨1, "f.py", "f", "f", "module", 1⟩,
         ⟨2, "g.py", "f", "g.f", "function", 2⟩,
         ⟨3, "g.py", "g", "g", "module", 1⟩]).entityIdByQualname
      (pyLower (pyStrip "f")) = some 1 ∧
    collectCandidates "calls" "g.py" "g" "f" (some 3)
      (buildEntityIndex
        [⟨1, "f.py", "f", "f", "module", 1⟩,
         ⟨2, "g.py", "f", "g.f", "function", 2⟩,
         ⟨3, "g.py", "g", "g", "module", 1⟩])
      (buildImportsByScope [⟨1, "g.py", "g", "f", "calls", 5, none, none, false, 0⟩])
      = [(1, 1), (2, 0.93)] ∧
    resolveRelationDestination "calls" "g.py" "g" "f" (some 3)
      (buildEntityIndex
        [⟨1, "f.py", "f", "f", "module", 1⟩,
         ⟨2, "g.py", "f", "g.f", "function", 2⟩,
         ⟨3, "g.py", "g", "g", "module", 1⟩])
      (buildImportsByScope [⟨1, "g.py", "g", "f", "calls", 5, none, none, false, 0⟩])
      ≠ (some 1, 1) ∧
    resolveRelationDestination "calls" "g.py" "g" "f" (some 3)
      (buildEntityIndex
        [⟨1, "f.py", "f", "f", "module", 1⟩,
         ⟨2, "g.py", "f", "g.f", "function", 2⟩,
         ⟨3, "g.py", "g", "g", "module", 1⟩])
      (buildImportsByScope [⟨1, "g.py", "g", "f", "calls", 5, none, none, false, 0⟩])
      = (none, 0) := by
  refine ⟨by decide, by decide, by decide, by decide⟩

/-- Claim C2 (amended): a direct qualname match always enters the
candidate map with confidence exactly `1.0` while every other candidate
scores at most `0.98`; the relation's destination then resolves to the
matched entity with confidence exactly `1.0` precisely when every other
candidate scores at most `0.85` (in particular it either resolves that
way or stays unresolved with confidence `0.0`); and whenever the two
highest-ranked candidates lie within `0.15` of each other the destination
is unresolved with confidence `0.0`. -/
theorem claim_C2 (relationKind filePath srcQualname dstName : String)
    (srcEntityId : Option Nat) (idx : ResolveIndex) (importsByScope : ImportsByScope)
    (i : Nat)
    (hdirect : dictGet idx.entityIdByQualname (pyLower (pyStrip dstName)) = some i) :
    dictGet (collectCandidates relationKind filePath srcQualname
        (pyLower (pyStrip dstName)) srcEntityId idx importsByScope) i = some 1 ∧
    (∀ j c, j ≠ i →
      dictGet (collectCandidates relationKind filePath srcQualname
        (pyLower (pyStrip dstName)) srcEntityId idx importsByScope) j = some c →
      c ≤ 0.98) ∧
    (pyLower (pyStrip dstName) ≠ "" →
      ((resolveRelationDestination relationKind filePath srcQualname dstName
          srcEntityId idx importsByScope = (some i, 1) ∨
        resolveRelationDestination relationKind filePath srcQualname dstName
          srcEntityId idx importsByScope = (none, 0)) ∧
       (resolveRelationDestination relationKind filePath srcQualname dstName
          srcEntityId idx importsByScope = (some i, 1) ↔
        ∀ j c, j ≠ i →
          dictGet (collectCandidates relationKind filePath srcQualname
            (pyLower (pyStrip dstName)) srcEntityId idx importsByScope) j = some c →
          c ≤ 0.85))) ∧
    (∀ (cands : List (Nat × ℚ)) (t s : Nat × ℚ) (r : List (Nat × ℚ)),
      2 ≤ cands.length → rankCandidates cands = t :: s :: r →
      t.2 - s.2 < 0.15 → pickBestCandidate cands = (none, 0)) := by
  have hok := collectCandidates_directOk relationKind filePath srcQualname
    (pyLower (pyStrip dstName)) srcEntityId idx importsByScope i hdirect
  have hpick := directOk_pick i _ hok
  refine ⟨hok.2.1, hok.2.2, ?_, ?_⟩
  · intro hne
    have hres : resolveRelationDestination relationKind filePath srcQualname dstName
        srcEntityId idx importsByScope
        = pickBestCandidate (collectCandidates relationKind filePath srcQualname
            (pyLower (pyStrip dstName)) srcEntityId idx importsByScope) := by
      rw [resolveRelationDestination, if_neg hne]
    rw [hres]
    exact ⟨hpick.1, hpick.2⟩
  · intro cands t s r hlen hrank hgap
    rcases cands with _ | ⟨x, _ | ⟨y, l⟩⟩
    · simp at hlen
    · simp at hlen
    · simp only [pickBestCandidate, hrank]
      have hng : ¬((0.15 : ℚ) ≤ ((t :: s :: r).getD 0 (0, 0)).2
          - ((t :: s :: r).getD 1 (0, 0)).2) := by
        simp only [List.getD_cons_zero, List.getD_cons_succ]
        linarith
      rw [if_neg hng]

theorem claim_C2_witness :
    dictGet (collectCandidates "calls" "m.py" "m" (pyLower (pyStrip "m.f")) (some 1)
        (buildEntityIndex [⟨1, "m.py", "f", "m.f", "function", 2⟩]) []) 1 = some 1 ∧
    (∀ j c, j ≠ 1 →
      dictGet (collectCandidates "calls" "m.py" "m" (pyLower (pyStrip "m.f")) (some 1)
        (buildEntityIndex [⟨1, "m.py", "f", "m.f", "function", 2⟩]) []) j = some c →
      c ≤ 0.98) ∧
    (pyLower (pyStrip "m.f") ≠ "" →
      ((resolveRelationDestination "calls" "m.py" "m" "m.f" (some 1)
          (buildEntityIndex [⟨1, "m.py", "f", "m.f", "function", 2⟩]) [] = (some 1, 1) ∨
        resolveRelationDestination "calls" "m.py" "m" "m.f" (some 1)
          (buildEntityIndex [⟨1, "m.py", "f", "m.f", "function", 2⟩]) [] = (none, 0)) ∧
       (resolveRelationDestination "calls" "m.py" "m" "m.f" (some 1)
          (buildEntityIndex [⟨1, "m.py", "f", "m.f", "function", 2⟩]) [] = (some 1, 1) ↔
        ∀ j c, j ≠ 1 →
          dictGet (collectCandidates "calls" "m.py" "m" (pyLower (pyStrip "m.f"))
            (some 1) (buildEntityIndex [⟨1, "m.py", "f", "m.f", "function", 2⟩]) [])
            j = some c →
          c ≤ 0.85))) ∧
    (∀ (cands : List (Nat × ℚ)) (t s : Nat × ℚ) (r : List (Nat × ℚ)),
      2 ≤ cands.length → rankCandidates cands = t :: s :: r →
      t.2 - s.2 < 0.15 → pickBestCandidate cands = (none, 0)) :=
  claim_C2 "calls" "m.py" "m" "m.f" (some 1)
    (buildEntityIndex [⟨1, "m.py", "f", "m.f", "function", 2⟩]) [] 1 (by decide)

/-! ### Shape of the rows the store passes produce -/

theorem round4_zero : round4 0 = 0 := by decide

theorem mem_insertRelOrIgnore (st : Store) (d : RelationRowData) (r : RelationRow)
    (h : r ∈ (insertRelOrIgnore st d).relations) :
    r ∈ st.relations ∨ r = d.withId st.nextRelationId := by
  rw [insertRelOrIgnore] at h
  split at h
  · exact Or.inl h
  · simp only [List.mem_append, List.mem_singleton] at h
    exact h

theorem mem_insertRelsOrIgnore (ds : List RelationRowData) :
    ∀ (st : Store) (r : RelationRow), r ∈ (insertRelsOrIgnore st ds).relations →
      r ∈ st.relations ∨ ∃ d ∈ ds, ∃ id, r = d.withId id := by
  induction ds with
  | nil => intro st r h; exact Or.inl h
  | cons d rest ih =>
    intro st r h
    rcases ih (insertRelOrIgnore st d) r h with h' | ⟨d', hd', id, rfl⟩
    · rcases mem_insertRelOrIgnore st d r h' with h'' | rfl
      · exact Or.inl h''
      · exact Or.inr ⟨d, by simp, st.nextRelationId, rfl⟩
    · exact Or.inr ⟨d', List.mem_cons_of_mem _ hd', id, rfl⟩

theorem mem_instantiatesCandidates (kept : List RelationRow) (ents : List EntityRow)
    (d : RelationRowData) (h : d ∈ instantiatesCandidates kept ents) :
    ∃ r ∈ kept, ∃ cls ∈ ents, r.relation = "calls" ∧ r.resolved = true ∧
      some cls.id = r.dst_entity_id ∧ cls.kind = "class" ∧
      d = ⟨r.file_path, r.src_qualname, cls.qualname, "instantiates", r.line,
        r.src_entity_id, r.dst_entity_id, true, r.confidence⟩ := by
  simp only [instantiatesCandidates, List.mem_flatMap] at h
  obtain ⟨r, hr, hd⟩ := h
  split at hd
  · rename_i hcond
    simp only [List.mem_map, List.mem_filter, decide_eq_true_eq] at hd
    obtain ⟨cls, ⟨hclsmem, hclsid, hclskind⟩, rfl⟩ := hd
    exact ⟨r, hr, cls, hclsmem, hcond.1, hcond.2, hclsid, hclskind, rfl⟩
  · simp at hd

theorem mem_dedupByKey {α κ : Type} [DecidableEq κ] (key : α → κ) :
    ∀ (l : List α) (y : α), y ∈ dedupByKey key l → y ∈ l := by
  intro l
  induction l with
  | nil => intro y h; cases h
  | cons x rest ih =>
    intro y h
    rcases List.mem_cons.mp h with rfl | h'
    · exact List.mem_cons_self _ _
    · exact List.mem_cons_of_mem _ (ih y (List.mem_filter.mp h').1)

/-- The row-level invariant claim C3 asserts. -/
def rowInv (r : RelationRow) : Prop :=
  (r.resolved = true ↔ (r.src_entity_id.isSome = true ∧ r.dst_entity_id.isSome = true)) ∧
  (r.resolved = false → r.confidence = 0)

theorem rowInv_resolveRow (idx : ResolveIndex) (importsByScope : ImportsByScope)
    (r : RelationRow) : rowInv (resolveRow idx importsByScope r) := by
  rw [resolveRow]
  constructor
  · show (_ && _) = true ↔ _
    simp [Bool.and_eq_true]
  · intro h
    have h' : (Option.isSome _ && Option.isSome _) = false := h
    show round4 (if _ && _ then _ else 0) = 0
    rw [h']
    exact round4_zero

theorem resolveRelations_rowInv (st : Store) :
    ∀ r ∈ (resolveRelations st).relations, rowInv r := by
  rw [resolveRelations]
  split
  · rename_i hrel
    intro r hr
    rw [hrel] at hr
    cases hr
  · split
    · intro r hr
      simp only [List.mem_map] at hr
      obtain ⟨r0, _, rfl⟩ := hr
      exact ⟨by simp, fun _ => rfl⟩
    · intro r hr
      simp only [List.mem_map] at hr
      obtain ⟨r0, _, rfl⟩ := hr
      exact rowInv_resolveRow _ _ r0

theorem rowInv_instStage (st1 : Store) (kept : List RelationRow)
    (ents : List EntityRow)
    (hst1 : ∀ r ∈ st1.relations, rowInv r)
    (hkept : ∀ r ∈ kept, rowInv r) :
    ∀ r ∈ (insertRelsOrIgnore st1 (instantiatesCandidates kept ents)).relations,
      rowInv r := by
  intro r hr
  rcases mem_insertRelsOrIgnore _ _ r hr with h' | ⟨d, hd, id, rfl⟩
  · exact hst1 r h'
  · obtain ⟨r0, hr0, cls, hcls, _, hres0, hdst0, _, rfl⟩ :=
      mem_instantiatesCandidates _ _ d hd
    have hiv := hkept r0 hr0
    have hsrc : r0.src_entity_id.isSome = true := (hiv.1.mp hres0).1
    refine ⟨?_, ?_⟩
    · simp only [RelationRowData.withId]
      constructor
      · intro _
        exact ⟨hsrc, by rw [← hdst0]; rfl⟩
      · intro _; trivial
    · intro hfalse
      simp only [RelationRowData.withId] at hfalse
      cases hfalse

theorem deriveRichRelations_rowInv (st : Store)
    (hst : ∀ r ∈ st.relations, rowInv r) :
    ∀ r ∈ (deriveRichRelations st).relations, rowInv r := by
  have hkept : ∀ r ∈ st.relations.filter
      (fun r => !(r.relation == "instantiates" || r.relation == "overrides")),
      rowInv r := fun r hr => hst r (List.mem_filter.mp hr).1
  simp only [deriveRichRelations]
  split
  · exact rowInv_instStage _ _ _ hkept hkept
  · intro r hr
    rcases mem_insertRelsOrIgnore _ _ r hr with h' | ⟨d, hd, id, rfl⟩
    · exact rowInv_instStage _ _ _ hkept hkept r h'
    · simp only [List.mem_map] at hd
      obtain ⟨q, _, rfl⟩ := hd
      exact ⟨by simp [RelationRowData.withId], by simp [RelationRowData.withId]⟩

/-- Claim C3: after any resolution pass followed by the derived-relation
pass, every relation row in the store is `resolved` iff both its
`src_entity_id` and `dst_entity_id` are non-null, and an unresolved row
carries confidence exactly `0.0`. -/
theorem claim_C3 (st : Store) :
    ∀ r ∈ (deriveRichRelations (resolveRelations st)).relations,
      (r.resolved = true ↔
        (r.src_entity_id.isSome = true ∧ r.dst_entity_id.isSome = true)) ∧
      (r.resolved = false → r.confidence = 0) :=
  deriveRichRelations_rowInv (resolveRelations st) (resolveRelations_rowInv st)

theorem claim_C3_witness :
    (⟨1, "m.py", "m", "m.f", "calls", 3, none, none, false, 0⟩ : RelationRow) ∈
      (deriveRichRelations (resolveRelations
        ⟨[], [⟨1, "m.py", "m", "m.f", "calls", 3, some 5, some 6, true, 1⟩], 1, 2⟩)).relations ∧
    ((false = true ↔ ((none : Option Nat).isSome = true ∧ (none : Option Nat).isSome = true)) ∧
      (false = false → (0 : ℚ) = 0)) :=
  ⟨by decide, claim_C3
    ⟨[], [⟨1, "m.py", "m", "m.f", "calls", 3, some 5, some 6, true, 1⟩], 1, 2⟩
    ⟨1, "m.py", "m", "m.f", "calls", 3, none, none, false, 0⟩ (by decide)⟩

/-! ### Uniqueness invariants (claim C4) -/

theorem pairwise_key_append {α κ : Type} (key : α → κ) (l : List α) (x : α)
    (hl : l.Pairwise (fun a b => key a ≠ key b)) (hx : ∀ a ∈ l, key a ≠ key x) :
    (l ++ [x]).Pairwise (fun a b => key a ≠ key b) := by
  rw [List.pairwise_append]
  refine ⟨hl, List.pairwise_singleton _ _, ?_⟩
  intro a ha b hb
  rw [List.mem_singleton] at hb
  subst hb
  exact hx a ha

theorem uniqueInv_insertEntOrIgnore (st : Store) (d : EntityRowData)
    (h : uniqueInv st) : uniqueInv (insertEntOrIgnore st d) := by
  rw [insertEntOrIgnore]
  split
  · exact h
  · rename_i hguard
    refine ⟨pairwise_key_append entKey _ _ h.1 ?_, h.2⟩
    intro a ha hk
    rw [List.any_eq_true] at hguard
    exact hguard ⟨a, ha, by rw [beq_iff_eq]; exact hk⟩

theorem uniqueInv_insertEntsOrIgnore (ds : List EntityRowData) :
    ∀ st : Store, uniqueInv st → uniqueInv (insertEntsOrIgnore st ds) := by
  induction ds with
  | nil => exact fun _ h => h
  | cons d rest ih =>
    intro st h
    exact ih (insertEntOrIgnore st d) (uniqueInv_insertEntOrIgnore st d h)

theorem uniqueInv_insertRelOrIgnore (st : Store) (d : RelationRowData)
    (h : uniqueInv st) : uniqueInv (insertRelOrIgnore st d) := by
  rw [insertRelOrIgnore]
  split
  · exact h
  · rename_i hguard
    refine ⟨h.1, pairwise_key_append relKey _ _ h.2 ?_⟩
    intro a ha hk
    rw [List.any_eq_true] at hguard
    exact hguard ⟨a, ha, by rw [beq_iff_eq]; exact hk⟩

theorem uniqueInv_insertRelsOrIgnore (ds : List RelationRowData) :
    ∀ st : Store, uniqueInv st → uniqueInv (insertRelsOrIgnore st ds) := by
  induction ds with
  | nil => exact fun _ h => h
  | cons d rest ih =>
    intro st h
    exact ih (insertRelOrIgnore st d) (uniqueInv_insertRelOrIgnore st d h)

theorem uniqueInv_resolveRelations (st : Store) (h : uniqueInv st) :
    uniqueInv (resolveRelations st) := by
  rw [resolveRelations]
  split
  · exact h
  · split
    · exact ⟨h.1, (List.pairwise_map).mpr (h.2.imp (fun hab => hab))⟩
    · exact ⟨h.1, (List.pairwise_map).mpr (h.2.imp (fun hab => hab))⟩

theorem uniqueInv_deriveRichRelations (st : Store) (h : uniqueInv st) :
    uniqueInv (deriveRichRelations st) := by
  have hkept : (st.relations.filter
      (fun r => !(r.relation == "instantiates" || r.relation == "overrides"))).Pairwise
      (fun a b => relKey a ≠ relKey b) :=
    h.2.sublist (List.filter_sublist _)
  simp only [deriveRichRelations]
  split
  · exact uniqueInv_insertRelsOrIgnore _ _ ⟨h.1, hkept⟩
  · exact uniqueInv_insertRelsOrIgnore _ _
      (uniqueInv_insertRelsOrIgnore _ _ ⟨h.1, hkept⟩)

theorem uniqueInv_clearFileGraph (st : Store) (fp : String) (h : uniqueInv st) :
    uniqueInv (clearFileGraph st fp) :=
  ⟨h.1.sublist (List.filter_sublist _), h.2.sublist (List.filter_sublist _)⟩

theorem uniqueInv_indexFileContent (st : Store)
    (ex : List EntityData × List RelationData) (h : uniqueInv st) :
    uniqueInv (indexFileContent st ex) := by
  rw [indexFileContent]
  split
  · exact h
  · exact uniqueInv_insertRelsOrIgnore _ _ (uniqueInv_insertEntsOrIgnore _ _ h)

theorem uniqueInv_foldl_index (files : List (List EntityData × List RelationData)) :
    ∀ st : Store, uniqueInv st → uniqueInv (files.foldl indexFileContent st) := by
  induction files with
  | nil => exact fun _ h => h
  | cons f rest ih =>
    intro st h
    exact ih _ (uniqueInv_indexFileContent st f h)

theorem uniqueInv_foldl_clear (touched : List String) :
    ∀ st : Store, uniqueInv st → uniqueInv (touched.foldl clearFileGraph st) := by
  induction touched with
  | nil => exact fun _ h => h
  | cons fp rest ih =>
    intro st h
    exact ih _ (uniqueInv_clearFileGraph st fp h)

theorem uniqueInv_foldl_changed
    (changed : List (String × Option (List EntityData × List RelationData))) :
    ∀ st : Store, uniqueInv st →
      uniqueInv (changed.foldl (fun s c =>
        match c.2 with
        | some extraction => indexFileContent s extraction
        | none => s) st) := by
  induction changed with
  | nil => exact fun _ h => h
  | cons c rest ih =>
    intro st h
    refine ih _ ?_
    rcases c with ⟨fp, ex⟩
    cases ex with
    | none => exact h
    | some extraction => exact uniqueInv_indexFileContent st extraction h

theorem uniqueInv_applyGraphOp (st : Store) (op : GraphOp) (h : uniqueInv st) :
    uniqueInv (applyGraphOp st op) := by
  cases op with
  | rebuild files =>
    exact uniqueInv_deriveRichRelations _ (uniqueInv_resolveRelations _
      (uniqueInv_foldl_index files _ ⟨List.Pairwise.nil, List.Pairwise.nil⟩))
  | incremental changed deleted =>
    exact uniqueInv_deriveRichRelations _ (uniqueInv_resolveRelations _
      (uniqueInv_foldl_changed changed _ (uniqueInv_foldl_clear _ _ h)))

theorem uniqueInv_applyGraphOps (ops : List GraphOp) :
    ∀ st : Store, uniqueInv st → uniqueInv (applyGraphOps ops st) := by
  induction ops with
  | nil => exact fun _ h => h
  | cons op rest ih =>
    intro st h
    simp only [applyGraphOps, List.foldl_cons]
    exact ih _ (uniqueInv_applyGraphOp st op h)

/-- Claim C4: after any sequence of full rebuilds and incremental updates
(starting from the empty store), no two entity rows share the same
`(file_path, qualname, kind)` triple and no two relation rows share the
same `(file_path, src_qualname, dst_name, relation, line)` tuple. -/
theorem claim_C4 (ops : List GraphOp) :
    (applyGraphOps ops emptyStore).entities.Pairwise
      (fun a b => entKey a ≠ entKey b) ∧
    (applyGraphOps ops emptyStore).relations.Pairwise
      (fun a b => relKey a ≠ relKey b) :=
  uniqueInv_applyGraphOps ops emptyStore ⟨List.Pairwise.nil, List.Pairwise.nil⟩

/-! ### The `instantiates` rows of the derived-relation pass (claim C8) -/

theorem insertRelOrIgnore_relations_mono (st : Store) (d : RelationRowData)
    (r : RelationRow) (h : r ∈ st.relations) :
    r ∈ (insertRelOrIgnore st d).relations := by
  rw [insertRelOrIgnore]
  split
  · exact h
  · exact List.mem_append_left _ h

theorem insertRelsOrIgnore_relations_mono (ds : List RelationRowData) :
    ∀ (st : Store) (r : RelationRow), r ∈ st.relations →
      r ∈ (insertRelsOrIgnore st ds).relations := by
  induction ds with
  | nil => exact fun _ _ h => h
  | cons d rest ih =>
    intro st r h
    exact ih (insertRelOrIgnore st d) r (insertRelOrIgnore_relations_mono st d r h)

theorem exists_key_insertRelOrIgnore (st : Store) (d : RelationRowData) :
    ∃ r' ∈ (insertRelOrIgnore st d).relations, relKey r' = relKeyData d := by
  rw [insertRelOrIgnore]
  split
  · rename_i hguard
    rw [List.any_eq_true] at hguard
    obtain ⟨r, hr, hk⟩ := hguard
    exact ⟨r, hr, by rwa [beq_iff_eq] at hk⟩
  · exact ⟨d.withId st.nextRelationId, List.mem_append_right _ (List.mem_singleton_self _), rfl⟩

theorem exists_key_insertRelsOrIgnore (ds : List RelationRowData) :
    ∀ (st : Store) (d : RelationRowData), d ∈ ds →
      ∃ r' ∈ (insertRelsOrIgnore st ds).relations, relKey r' = relKeyData d := by
  induction ds with
  | nil => intro _ _ h; cases h
  | cons d0 rest ih =>
    intro st d hd
    rcases List.mem_cons.mp hd with rfl | hd'
    · obtain ⟨r', hr', hk⟩ := exists_key_insertRelOrIgnore st d
      exact ⟨r', insertRelsOrIgnore_relations_mono rest _ r' hr', hk⟩
    · exact ih (insertRelOrIgnore st d0) d hd'

/-- Soundness half of the amended C8: every `instantiates` row present after
the pass is generated by a resolved `calls` row of the input joined to a
`class` entity, inheriting its endpoints and confidence. -/
theorem derive_inst_sound (st : Store) :
    ∀ r' ∈ (deriveRichRelations st).relations, r'.relation = "instantiates" →
      ∃ r ∈ st.relations, ∃ cls ∈ st.entities,
        r.relation = "calls" ∧ r.resolved = true ∧
        some cls.id = r.dst_entity_id ∧ cls.kind = "class" ∧
        r'.src_entity_id = r.src_entity_id ∧ r'.dst_entity_id = r.dst_entity_id ∧
        r'.resolved = true ∧ r'.confidence = r.confidence ∧
        r'.file_path = r.file_path ∧ r'.src_qualname = r.src_qualname ∧
        r'.dst_name = cls.qualname ∧ r'.line = r.line := by
  have main : ∀ r' ∈ (insertRelsOrIgnore
      { st with relations := (st.relations.filter
          (fun r => !(r.relation == "instantiates" || r.relation == "overrides"))) }
      (instantiatesCandidates
        (st.relations.filter
          (fun r => !(r.relation == "instantiates" || r.relation == "overrides")))
        st.entities)).relations,
      r'.relation = "instantiates" →
      ∃ r ∈ st.relations, ∃ cls ∈ st.entities,
        r.relation = "calls" ∧ r.resolved = true ∧
        some cls.id = r.dst_entity_id ∧ cls.kind = "class" ∧
        r'.src_entity_id = r.src_entity_id ∧ r'.dst_entity_id = r.dst_entity_id ∧
        r'.resolved = true ∧ r'.confidence = r.confidence ∧
        r'.file_path = r.file_path ∧ r'.src_qualname = r.src_qualname ∧
        r'.dst_name = cls.qualname ∧ r'.line = r.line := by
    intro r' hr' hrel
    rcases mem_insertRelsOrIgnore _ _ r' hr' with hk | ⟨d, hd, id, rfl⟩
    · have hpred := (List.mem_filter.mp hk).2
      rw [hrel] at hpred
      cases hpred
    · obtain ⟨r0, hr0, cls, hcls, h1, h2, h3, h4, rfl⟩ :=
        mem_instantiatesCandidates _ _ d hd
      exact ⟨r0, (List.mem_filter.mp hr0).1, cls, hcls, h1, h2, h3, h4,
        rfl, rfl, rfl, rfl, rfl, rfl, rfl, rfl⟩
  intro r' hr' hrel
  rw [deriveRichRelations] at hr'
  simp only at hr'
  split at hr'
  · exact main r' hr' hrel
  · rcases mem_insertRelsOrIgnore _ _ r' hr' with hk | ⟨d, hd, id, rfl⟩
    · exact main r' hk hrel
    · simp only [List.mem_map] at hd
      obtain ⟨q, _, rfl⟩ := hd
      exact absurd hrel (by simp [RelationRowData.withId])

/-- Completeness half of the amended C8: every resolved `calls` row whose
destination entity is a `class` leaves an `instantiates` row at its derived
key after the pass (several such `calls` rows can collapse onto one row). -/
theorem derive_inst_complete (st : Store) :
    ∀ r ∈ st.relations, ∀ cls ∈ st.entities,
      r.relation = "calls" → r.resolved = true →
      some cls.id = r.dst_entity_id → cls.kind = "class" →
      ∃ r' ∈ (deriveRichRelations st).relations,
        r'.relation = "instantiates" ∧ r'.resolved = true ∧
        r'.file_path = r.file_path ∧ r'.src_qualname = r.src_qualname ∧
        r'.dst_name = cls.qualname ∧ r'.line = r.line := by
  intro r hr cls hcls h1 h2 h3 h4
  have hrk : r ∈ st.relations.filter
      (fun r => !(r.relation == "instantiates" || r.relation == "overrides")) :=
    List.mem_filter.mpr ⟨hr, by rw [h1]; decide⟩
  have hd : (⟨r.file_path, r.src_qualname, cls.qualname, "instantiates", r.line,
      r.src_entity_id, r.dst_entity_id, true, r.confidence⟩ : RelationRowData) ∈
      instantiatesCandidates
        (st.relations.filter
          (fun r => !(r.relation == "instantiates" || r.relation == "overrides")))
        st.entities := by
    simp only [instantiatesCandidates, List.mem_flatMap]
    refine ⟨r, hrk, ?_⟩
    rw [if_pos ⟨h1, h2⟩]
    exact List.mem_map.mpr
      ⟨cls, List.mem_filter.mpr ⟨hcls, by simp [h3, h4]⟩, rfl⟩
  obtain ⟨r', hr', hkey⟩ := exists_key_insertRelsOrIgnore _ _ _ hd
  have hfields : r'.file_path = r.file_path ∧ r'.src_qualname = r.src_qualname ∧
      r'.dst_name = cls.qualname ∧ r'.relation = "instantiates" ∧ r'.line = r.line := by
    rw [relKey, relKeyData] at hkey
    simp only [Prod.mk.injEq] at hkey
    exact ⟨hkey.1, hkey.2.1, hkey.2.2.1, hkey.2.2.2.1, hkey.2.2.2.2⟩
  have hfinal : r' ∈ (deriveRichRelations st).relations := by
    rw [deriveRichRelations]
    simp only
    split
    · exact hr'
    · exact insertRelsOrIgnore_relations_mono _ _ r' hr'
  have hres : r'.resolved = true := by
    obtain ⟨_, _, _, _, _, _, _, _, _, _, hres', _⟩ :=
      derive_inst_sound st r' hfinal hfields.2.2.2.1
    exact hres'
  exact ⟨r', hfinal, hfields.2.2.2.1, hres, hfields.1, hfields.2.1,
    hfields.2.2.1, hfields.2.2.2.2⟩

theorem keptFilter_idem (l : List RelationRow) :
    (l.filter
        (fun r => !(r.relation == "instantiates" || r.relation == "overrides"))).filter
      (fun r => !(r.relation == "instantiates" || r.relation == "overrides")) =
    l.filter (fun r => !(r.relation == "instantiates" || r.relation == "overrides")) := by
  rw [List.filter_filter]
  exact List.filter_congr (fun a _ => Bool.and_self _)

/-- Independence half of the amended C8: the pass deletes every derived row
before regenerating, so its output does not depend on the `instantiates` and
`overrides` rows present beforehand. -/
theorem derive_independent (st : Store) :
    deriveRichRelations
        { st with relations := (st.relations.filter
            (fun r => !(r.relation == "instantiates" || r.relation == "overrides"))) } =
      deriveRichRelations st := by
  simp only [deriveRichRelations, keptFilter_idem]

/-- Claim C8 (amended): after the derived-relation pass, (a) every
`instantiates` row is generated by a resolved `calls` row of the input
joined to a `class` entity, with the same endpoints, the `calls` row's
confidence, and `resolved = true`; (b) every resolved `calls` row whose
destination entity is a `class` leaves an `instantiates` row at its derived
key — but several such `calls` rows sharing `(file_path, src_qualname,
line)` and target class collapse onto a single row rather than one row
each; and (c) the pass first deletes all derived rows, so its result is
independent of the derived rows present beforehand. -/
theorem claim_C8 (st : Store) :
    (∀ r' ∈ (deriveRichRelations st).relations, r'.relation = "instantiates" →
      ∃ r ∈ st.relations, ∃ cls ∈ st.entities,
        r.relation = "calls" ∧ r.resolved = true ∧
        some cls.id = r.dst_entity_id ∧ cls.kind = "class" ∧
        r'.src_entity_id = r.src_entity_id ∧ r'.dst_entity_id = r.dst_entity_id ∧
        r'.resolved = true ∧ r'.confidence = r.confidence ∧
        r'.file_path = r.file_path ∧ r'.src_qualname = r.src_qualname ∧
        r'.dst_name = cls.qualname ∧ r'.line = r.line) ∧
    (∀ r ∈ st.relations, ∀ cls ∈ st.entities,
      r.relation = "calls" → r.resolved = true →
      some cls.id = r.dst_entity_id → cls.kind = "class" →
      ∃ r' ∈ (deriveRichRelations st).relations,
        r'.relation = "instantiates" ∧ r'.resolved = true ∧
        r'.file_path = r.file_path ∧ r'.src_qualname = r.src_qualname ∧
        r'.dst_name = cls.qualname ∧ r'.line = r.line) ∧
    (deriveRichRelations
        { st with relations := (st.relations.filter
            (fun r => !(r.relation == "instantiates" || r.relation == "overrides"))) } =
      deriveRichRelations st) :=
  ⟨derive_inst_sound st, derive_inst_complete st, derive_independent st⟩

theorem claim_C8_witness :
    ∃ r' ∈ (deriveRichRelations
        ⟨[⟨1, "f.py", "c", "m.c", "class", 1⟩],
         [⟨1, "f.py", "m", "m.c", "calls", 5, some 2, some 1, true, 1⟩], 3, 2⟩).relations,
      r'.relation = "instantiates" ∧ r'.resolved = true ∧
      r'.file_path = "f.py" ∧ r'.src_qualname = "m" ∧
      r'.dst_name = "m.c" ∧ r'.line = 5 :=
  (claim_C8
      ⟨[⟨1, "f.py", "c", "m.c", "class", 1⟩],
       [⟨1, "f.py", "m", "m.c", "calls", 5, some 2, some 1, true, 1⟩], 3, 2⟩).2.1
    ⟨1, "f.py", "m", "m.c", "calls", 5, some 2, some 1, true, 1⟩ (by decide)
    ⟨1, "f.py", "c", "m.c", "class", 1⟩ (by decide)
    (by decide) (by decide) (by decide) (by decide)

/-- The original C8 wording fails: two distinct resolved `calls` relations
(to qualnames `m.c` and `c`, both resolving to the same class) share
`(file_path, src_qualname, line)`, so their derived `instantiates` rows
share one key and `INSERT OR IGNORE` keeps only one of them — one row for
two resolved class-calls, not one row per resolved class-call. -/
theorem claim_C8_counterexample :
    ((deriveRichRelations (resolveRelations
      ⟨[⟨1, "f.py", "c", "m.c", "class", 1⟩, ⟨2, "f.py", "m", "m", "module", 1⟩],
       [⟨1, "f.py", "m", "m.c", "calls", 5, none, none, false, 0⟩,
        ⟨2, "f.py", "m", "c", "calls", 5, none, none, false, 0⟩], 3, 3⟩)).relations.countP
        (fun r => r.relation == "instantiates") = 1) ∧
    ((resolveRelations
      ⟨[⟨1, "f.py", "c", "m.c", "class", 1⟩, ⟨2, "f.py", "m", "m", "module", 1⟩],
       [⟨1, "f.py", "m", "m.c", "calls", 5, none, none, false, 0⟩,
        ⟨2, "f.py", "m", "c", "calls", 5, none, none, false, 0⟩], 3, 3⟩).relations.countP
        (fun r => r.relation == "calls" && r.resolved &&
          [(⟨1, "f.py", "c", "m.c", "class", 1⟩ : EntityRow), ⟨2, "f.py", "m", "m", "module", 1⟩].any
            (fun cls => (some cls.id == r.dst_entity_id) && (cls.kind == "class"))) = 2) := by
  decide

/-! ### Case-insensitivity of the public interface (claim C10) -/

theorem char_toLower_eq (c : Char) :
    c.toLower = if 65 ≤ c.toNat ∧ c.toNat ≤ 90 then Char.ofNat (c.toNat + 32) else c :=
  rfl

theorem char_toNat_ofNat_lt {n : Nat} (h : n < 55296) : (Char.ofNat n).toNat = n := by
  rw [Char.ofNat, dif_pos (Or.inl h)]
  rfl

theorem char_toNat_injective {a b : Char} (h : a.toNat = b.toNat) : a = b := by
  have ha := Char.ofNat_toNat a
  rw [h, Char.ofNat_toNat b] at ha
  exact ha.symm

theorem char_toNat_toLower (c : Char) :
    c.toLower.toNat = if 65 ≤ c.toNat ∧ c.toNat ≤ 90 then c.toNat + 32 else c.toNat := by
  rw [char_toLower_eq]
  split
  · rename_i h
    exact char_toNat_ofNat_lt (by omega)
  · rfl

theorem char_toLower_toLower (c : Char) : c.toLower.toLower = c.toLower := by
  apply char_toNat_injective
  rw [char_toNat_toLower, char_toNat_toLower]
  by_cases h : 65 ≤ c.toNat ∧ c.toNat ≤ 90
  · simp only [if_pos h]
    rw [if_neg (by omega)]
  · simp only [if_neg h]

theorem pyWs_toNat (c : Char) :
    pyWs c = (c.toNat == 32 || c.toNat == 9 || c.toNat == 10 ||
      c.toNat == 13 || c.toNat == 11 || c.toNat == 12) := by
  rw [pyWs]
  have hch : ∀ d : Char, (c == d) = (c.toNat == d.toNat) := by
    intro d
    by_cases hcd : c = d
    · subst hcd
      simp
    · have : ¬c.toNat = d.toNat := fun hn => hcd (char_toNat_injective hn)
      simp [hcd, this]
  rw [show ((c = ' ' : Bool)) = (c == ' ') from rfl,
    show ((c = '\t' : Bool)) = (c == '\t') from rfl,
    show ((c = '\n' : Bool)) = (c == '\n') from rfl,
    show ((c = '\r' : Bool)) = (c == '\r') from rfl,
    show ((c = '\x0b' : Bool)) = (c == '\x0b') from rfl,
    show ((c = '\x0c' : Bool)) = (c == '\x0c') from rfl,
    hch, hch, hch, hch, hch, hch]
  rfl

theorem pyWs_toLower (c : Char) : pyWs c.toLower = pyWs c := by
  rw [pyWs_toNat, pyWs_toNat, char_toNat_toLower]
  split
  · rename_i h
    rw [Bool.eq_iff_iff]
    simp only [Bool.or_eq_true, beq_iff_eq]
    omega
  · rfl

theorem pyLower_pyLower (s : String) : pyLower (pyLower s) = pyLower s := by
  simp only [pyLower, List.map_map]
  congr 1
  exact List.map_congr_left (fun c _ => char_toLower_toLower c)

theorem pyStripList_map_toLower (l : List Char) :
    pyStripList (l.map Char.toLower) = (pyStripList l).map Char.toLower := by
  have hfun : (pyWs ∘ Char.toLower) = pyWs := funext pyWs_toLower
  rw [pyStripList, pyStripList, List.dropWhile_map, hfun, ← List.map_reverse,
    List.dropWhile_map, hfun, ← List.map_reverse]

theorem pyStrip_pyLower (s : String) : pyStrip (pyLower s) = pyLower (pyStrip s) := by
  rw [pyStrip, pyLower, pyLower, pyStrip]
  exact congrArg String.mk (pyStripList_map_toLower s.data)

theorem pyLowerStripLower (s : String) :
    pyLower (pyStrip (pyLower s)) = pyLower (pyStrip s) := by
  rw [pyStrip_pyLower, pyLower_pyLower]

/-- Claim C10: symbol matching is case-insensitive throughout the public
interface: `find_entities`, `find_callers`, `find_callees` and
`find_subclasses` return the same results for a symbol as for its
lowercased form; the resolver lowercases the raw target before comparing
(so resolution of a target and of its lowercased form coincide); and the
exact-qualname index is keyed on lowercased qualnames, so entities whose
qualnames differ only in letter case hit the same index slot (and are
thereby conflated during exact-qualname resolution). -/
theorem claim_C10 (st : Store) (symbol : String) (kind : Option String)
    (lim : Int) (ro : Bool) (relationKind filePath srcQualname dstName : String)
    (srcEntityId : Option Nat) (idx : ResolveIndex) (imps : ImportsByScope)
    (ents : List EntityRow) (e1 e2 : EntityRow)
    (hcase : pyLower (pyStrip e1.qualname) = pyLower (pyStrip e2.qualname)) :
    findEntities st symbol kind lim = findEntities st (pyLower symbol) kind lim ∧
    findCallers st symbol lim ro = findCallers st (pyLower symbol) lim ro ∧
    findCallees st symbol lim ro = findCallees st (pyLower symbol) lim ro ∧
    findSubclasses st symbol lim ro = findSubclasses st (pyLower symbol) lim ro ∧
    (resolveRelationDestination relationKind filePath srcQualname dstName
        srcEntityId idx imps =
      resolveRelationDestination relationKind filePath srcQualname
        (pyLower dstName) srcEntityId idx imps) ∧
    dictGet (buildEntityIndex ents).entityIdByQualname (pyLower (pyStrip e1.qualname)) =
      dictGet (buildEntityIndex ents).entityIdByQualname (pyLower (pyStrip e2.qualname)) := by
  refine ⟨?_, ?_, ?_, ?_, ?_, ?_⟩
  · rw [findEntities, findEntities, pyLowerStripLower]
  · rw [findCallers, findCallers, pyLowerStripLower]
  · rw [findCallees, findCallees, pyLowerStripLower]
  · rw [findSubclasses, findSubclasses, pyLowerStripLower]
  · rw [resolveRelationDestination, resolveRelationDestination, pyLowerStripLower]
  · rw [hcase]

theorem claim_C10_witness :
    pyLower (pyStrip "Graph.Node") = pyLower (pyStrip "graph.node") ∧
    dictGet (buildEntityIndex
        [⟨1, "g.py", "Node", "Graph.Node", "class", 3⟩]).entityIdByQualname
      (pyLower (pyStrip "Graph.Node")) =
    dictGet (buildEntityIndex
        [⟨1, "g.py", "Node", "Graph.Node", "class", 3⟩]).entityIdByQualname
      (pyLower (pyStrip "graph.node")) :=
  ⟨by decide,
    (claim_C10 emptyStore "S" none 10 false "calls" "g.py" "m" "d" none
      emptyResolveIndex []
      [⟨1, "g.py", "Node", "Graph.Node", "class", 3⟩]
      ⟨1, "g.py", "Node", "Graph.Node", "class", 3⟩
      ⟨2, "h.py", "node", "graph.node", "class", 7⟩
      (by decide)).2.2.2.2.2⟩

/-! ### The extractor contract (claim C5) -/

theorem head?_append_of_some {α : Type} {l l' : List α} {a : α}
    (h : l.head? = some a) : (l ++ l').head? = some a := by
  cases l with
  | nil => cases h
  | cons x xs => exact h

theorem foldl_ents_append {β : Type} (f : JsExtractState → β → JsExtractState)
    (hf : ∀ (st : JsExtractState) (b : β), ∃ t, (f st b).ents = st.ents ++ t) :
    ∀ (l : List β) (st : JsExtractState), ∃ t, (l.foldl f st).ents = st.ents ++ t := by
  intro l
  induction l with
  | nil => exact fun st => ⟨[], (List.append_nil _).symm⟩
  | cons x xs ih =>
    intro st
    obtain ⟨t1, h1⟩ := hf st x
    obtain ⟨t2, h2⟩ := ih (f st x)
    exact ⟨t1 ++ t2, by rw [List.foldl_cons, h2, h1, List.append_assoc]⟩

theorem methodStep_ents (fp : String) (cdata neutral : List Char) (classQual : String)
    (bodyStart bodyEnd : Nat) (st : JsExtractState)
    (mm : Nat × Nat × List (Nat × List Char)) :
    ∃ t, (methodStep fp cdata neutral classQual bodyStart bodyEnd st mm).ents =
      st.ents ++ t := by
  simp only [methodStep]
  repeat' split
  all_goals first
    | exact ⟨_, rfl⟩
    | exact ⟨[], (List.append_nil _).symm⟩

theorem classStep_ents (fp : String) (cdata neutral : List Char) (ms : String)
    (st : JsExtractState) (m : Nat × Nat × List (Nat × List Char)) :
    ∃ t, (classStep fp cdata neutral ms st m).ents = st.ents ++ t := by
  simp only [classStep]
  have hstep : ∀ (st1 : JsExtractState), (st1.ents = st.ents ∨
      ∃ t1, st1.ents = st.ents ++ t1) →
      ∀ (l : List (Nat × Nat × List (Nat × List Char))) (cq : String) (bs be : Nat),
      ∃ t, (l.foldl (methodStep fp cdata neutral cq bs be) st1).ents = st.ents ++ t := by
    intro st1 h1 l cq bs be
    obtain ⟨t2, h2⟩ :=
      foldl_ents_append _ (methodStep_ents fp cdata neutral cq bs be) l st1
    rcases h1 with h1 | ⟨t1, h1⟩
    · exact ⟨t2, by rw [h2, h1]⟩
    · exact ⟨t1 ++ t2, by rw [h2, h1, List.append_assoc]⟩
  repeat' split
  all_goals first
    | exact ⟨_, rfl⟩
    | exact ⟨[], (List.append_nil _).symm⟩
    | (refine hstep _ ?_ _ _ _ _; exact Or.inl rfl)
    | (refine hstep _ ?_ _ _ _ _; exact Or.inr ⟨_, rfl⟩)

theorem funStep_ents (fp : String) (cdata neutral : List Char) (ms : String)
    (st : JsExtractState) (m : Nat × Nat × List (Nat × List Char)) :
    ∃ t, (funStep fp cdata neutral ms st m).ents = st.ents ++ t := by
  simp only [funStep]
  repeat' split
  all_goals first
    | exact ⟨_, rfl⟩
    | exact ⟨[], (List.append_nil _).symm⟩

/-- The first entity the fallback emits is always the module entity — for
every input, well-formed or not. -/
theorem jsFallback_ents_head (fp content : String) :
    (extractJavascriptEntitiesFallback fp content).1.head? =
      some ⟨fp, moduleNameFromPath fp, moduleNameFromPath fp, "module", 1⟩ := by
  have main : ∀ (st0 : JsExtractState) (neutral cdata : List Char) (ms : String),
      st0.ents.head? =
        some ⟨fp, moduleNameFromPath fp, moduleNameFromPath fp, "module", 1⟩ →
      (([funDeclRx, funExprRx, arrowFunRx].foldl (fun st p =>
          (rxFinditer p neutral).foldl (funStep fp cdata neutral ms) st)
        ((rxFinditer classRx neutral).foldl (classStep fp cdata neutral ms)
          st0))).ents.head? =
        some ⟨fp, moduleNameFromPath fp, moduleNameFromPath fp, "module", 1⟩ := by
    intro st0 neutral cdata ms h0
    obtain ⟨t1, h1⟩ := foldl_ents_append _ (classStep_ents fp cdata neutral ms)
      (rxFinditer classRx neutral) st0
    obtain ⟨t2, h2⟩ := foldl_ents_append
      (fun st p => (rxFinditer p neutral).foldl (funStep fp cdata neutral ms) st)
      (fun st p => foldl_ents_append _ (funStep_ents fp cdata neutral ms)
        (rxFinditer p neutral) st)
      [funDeclRx, funExprRx, arrowFunRx] _
    rw [h2, h1]
    exact head?_append_of_some (head?_append_of_some h0)
  exact main _ _ _ _ rfl

/-- Claim C5 (amended): the registry returns `([], [])` for unsupported
paths, and the Python extractor returns `([], [])` when `ast.parse` fails —
but the JavaScript/TypeScript extractor does not honour the
empty-on-malformed contract: whenever the oxc parser is unavailable or
rejects the input (in particular on malformed input), the heuristic
fallback runs and always emits the module entity first, so its result is
never `([], [])`. -/
theorem claim_C5 (fpu fpj content : String) (pyParsed : Option PyNodes)
    (oxc : Option (List EntityData × List RelationData))
    (hun : pyLower (pathSuffix fpu) ∉
      ([".py", ".js", ".jsx", ".mjs", ".cjs", ".ts", ".tsx"] : List String)) :
    extractPythonEntities fpj none = ([], []) ∧
    extractForPath oxc pyParsed fpu content = ([], []) ∧
    (extractJavascriptEntitiesFallback fpj content).1.head? =
      some ⟨fpj, moduleNameFromPath fpj, moduleNameFromPath fpj, "module", 1⟩ := by
  refine ⟨rfl, ?_, jsFallback_ents_head fpj content⟩
  have h1 : ¬ pyLower (pathSuffix fpu) = ".py" := fun h => hun (by rw [h]; decide)
  have h2 : ¬ (pyLower (pathSuffix fpu) = ".js" ∨ pyLower (pathSuffix fpu) = ".jsx" ∨
      pyLower (pathSuffix fpu) = ".mjs" ∨ pyLower (pathSuffix fpu) = ".cjs" ∨
      pyLower (pathSuffix fpu) = ".ts" ∨ pyLower (pathSuffix fpu) = ".tsx") := by
    intro h
    rcases h with h | h | h | h | h | h <;> exact hun (by rw [h]; decide)
  simp only [extractForPath]
  rw [if_neg h1, if_neg h2]

theorem claim_C5_witness :
    (pyLower (pathSuffix "notes.txt") ∉
      ([".py", ".js", ".jsx", ".mjs", ".cjs", ".ts", ".tsx"] : List String)) ∧
    extractForPath none none "notes.txt" "x = 1" = ([], []) :=
  ⟨by decide, (claim_C5 "notes.txt" "a.js" "x = 1" none none (by decide)).2.1⟩

/-- The original C5 wording fails on the JavaScript extractor: `"("` is
malformed for the JavaScript grammar, yet extracting it from a `.js` path
(with the oxc parser unavailable or rejecting it) returns a module entity,
not `([], [])`. -/
theorem claim_C5_counterexample :
    extractForPath none none "a.js" "(" ≠ ([], []) := by
  intro h
  have h2 : extractForPath none none "a.js" "(" =
      extractJavascriptEntitiesFallback "a.js" "(" := rfl
  have h1 := jsFallback_ents_head "a.js" "("
  rw [h2] at h
  rw [h] at h1
  simp at h1

end TwinMind
